import Mathlib

/-!
Verification development for the Avro-like value model and schema-resolution
algorithm of `src/types.rs` (fork of avro-rs).

The embedding is parametric in the host-language semantics the Rust code
delegates to:
* `F32`, `F64` model the `f32`/`f64` payload types; the numeric `as`-casts
  between them and the integer types are fields of `HostFns` (theorems hold
  for every choice, in particular IEEE754).
* RFC 3339 / RFC 2822 timestamp parsing (the `chrono` crate) and the UTF-8
  encode/decode pair (`String::into_bytes` / `String::from_utf8`) are also
  `HostFns` fields.
* `L` models the opaque `LruLimit` policy object supplied by the crate root.

Machine integers `i32`/`i64` are modelled as unbounded `Int` with explicit
two's-complement wrapping (`wrap32`) where the source performs an `as` cast.
`HashMap`/`HashSet` payloads are modelled as association lists / string lists.
-/

namespace AvroRs

/-- `ValueSetting` from types.rs: the encoding annotation attached by the
resolver ("index" flag). -/
structure ValueSetting where
  index : Bool
deriving DecidableEq, Repr

/-- Modelled from the spec and usage in types.rs: the `Name` metadata object of
named schemas (schema.rs is not part of the sampled sources).  The resolver
reads `name.index` as the record-level index flag (types.rs line 436/477). -/
structure Name where
  name : String
  index : Bool
deriving DecidableEq, Repr

/-- Modelled from the spec: `RecordFieldOrder` of schema.rs (only carried as
inert metadata by the code under verification). -/
inductive RecordFieldOrder where
  | ascending
  | descending
  | ignore
deriving DecidableEq, Repr

/-- Modelled from the spec: `SchemaKind`, the case tag shared by `Schema` and
`Value` (schema.rs is not part of the sampled sources); one case per case of
the §3 data-model table. -/
inductive SchemaKind where
  | null
  | boolean
  | int
  | long
  | float
  | double
  | bytes
  | string
  | fixed
  | enum
  | union
  | array
  | map
  | record
  | date
  | set
  | lruSet
  | optional
deriving DecidableEq, Repr

/-- The payload of a `serde_json` number: an integral value fitting `i64`, a
large `u64`, or a float. -/
inductive JNumber (F64 : Type) where
  | i (n : Int)
  | u (n : Nat)
  | f (x : F64)

/-- `serde_json::Value`, as consumed by the `ToAvro` conversion bridge
(types.rs lines 314-339) and by record-field defaults. -/
inductive JsonValue (F64 : Type) where
  | null
  | bool (b : Bool)
  | number (n : JNumber F64)
  | string (s : String)
  | array (items : List (JsonValue F64))
  | object (items : List (String × JsonValue F64))

/-- `LruValue` from types.rs: per-key recency/frequency metadata. -/
structure LruValue where
  access_time : Int
  count : Int
deriving DecidableEq, Repr

mutual
/-- Modelled from the spec (§3, §6): the `Schema` tree consumed from the
schema system; schema.rs itself is not among the sampled sources, but every
constructor‐shape below is attested by the pattern matches and tests of
types.rs.  `UnionSchema` is flattened into the plain branch list it carries. -/
inductive Schema (F64 L : Type) where
  | null
  | boolean
  | int
  | long
  | float
  | double
  | bytes
  | string
  | fixed (size : Nat) (name : Name)
  | enum (name : Name) (doc : Option String) (symbols : List String)
  | union (branches : List (Schema F64 L))
  | array (inner : Schema F64 L)
  | map (inner : Schema F64 L)
  | record (name : Name) (doc : Option String) (fields : List (RecordField F64 L))
      (lookup : List (String × Nat))
  | date
  | set
  | lruSet (limit : L)
  | optional (inner : Schema F64 L)

/-- `RecordField` of schema.rs; the field list is attested by the test code of
types.rs (name, doc, default, schema, order, position, index). -/
inductive RecordField (F64 L : Type) where
  | mk (name : String) (doc : Option String) (default : Option (JsonValue F64))
      (schema : Schema F64 L) (order : RecordFieldOrder) (position : Nat)
      (index : Bool)
end

/-- The tagged-union Avro `Value` of types.rs (lines 54-118). -/
inductive Value (F32 F64 L : Type) where
  | null
  | boolean (b : Bool) (vs : Option ValueSetting)
  | int (n : Int) (vs : Option ValueSetting)
  | long (n : Int) (vs : Option ValueSetting)
  | float (x : F32) (vs : Option ValueSetting)
  | double (x : F64) (vs : Option ValueSetting)
  | bytes (b : List Nat) (vs : Option ValueSetting)
  | string (s : String) (vs : Option ValueSetting)
  | fixed (n : Nat) (b : List Nat) (vs : Option ValueSetting)
  | enum (i : Int) (s : String) (vs : Option ValueSetting)
  | union (v : Value F32 F64 L) (vs : Option ValueSetting)
  | array (items : List (Value F32 F64 L)) (vs : Option ValueSetting)
  | map (items : List (String × Value F32 F64 L)) (vs : Option ValueSetting)
  | record (fields : List (String × Value F32 F64 L)) (vs : Option ValueSetting)
  | date (t : Int) (vs : Option ValueSetting)
  | set (items : List String) (vs : Option ValueSetting)
  | lruSet (items : List (String × LruValue)) (limit : L) (vs : Option ValueSetting)
  | optional (v : Option (Value F32 F64 L)) (vs : Option ValueSetting)

/-- The host-language / external-crate operations the Rust code delegates to:
numeric `as` casts involving floats, chrono timestamp parsing (composed with
`timestamp_millis`), and the UTF-8 codec.  Theorems are stated for every
interpretation of these operations. -/
structure HostFns (F32 F64 : Type) where
  i32AsF32 : Int → F32
  i64AsF32 : Int → F32
  f64AsF32 : F64 → F32
  i32AsF64 : Int → F64
  i64AsF64 : Int → F64
  f32AsF64 : F32 → F64
  parse3339Millis : String → Option Int
  parse2822Millis : String → Option Int
  utf8Encode : String → List Nat
  utf8Decode : List Nat → Option String

section Model

variable {F32 F64 L : Type}

/-- Accessor for `RecordField.name`. -/
def RecordField.name : RecordField F64 L → String
  | .mk n _ _ _ _ _ _ => n

/-- Accessor for `RecordField.default`. -/
def RecordField.default : RecordField F64 L → Option (JsonValue F64)
  | .mk _ _ d _ _ _ _ => d

/-- Accessor for `RecordField.schema`. -/
def RecordField.schema : RecordField F64 L → Schema F64 L
  | .mk _ _ _ s _ _ _ => s

/-- Accessor for `RecordField.index`. -/
def RecordField.index : RecordField F64 L → Bool
  | .mk _ _ _ _ _ _ i => i

/-- `Value::get_value_setting` (types.rs lines 873-879). -/
def getValueSetting (index : Bool) : Option ValueSetting :=
  if !index then none else some { index := index }

/-- Two's-complement truncation of an unbounded integer to `i32`
(the semantics of Rust's `n as i32` on an `i64`). -/
def wrap32 (n : Int) : Int :=
  (n + 2 ^ 31) % 2 ^ 32 - 2 ^ 31

/-- Two's-complement reinterpretation of a `u64` as an `i64`
(the semantics of Rust's `n as i64` on a `u64`). -/
def wrap64 (n : Nat) : Int :=
  if n < 2 ^ 63 then (n : Int) else (n : Int) - 2 ^ 64

/-- Modelled from the spec: `SchemaKind::from(&Value)` — the case tag of a
value (one tag per §3 case). -/
def kindOfValue : Value F32 F64 L → SchemaKind
  | .null => .null
  | .boolean _ _ => .boolean
  | .int _ _ => .int
  | .long _ _ => .long
  | .float _ _ => .float
  | .double _ _ => .double
  | .bytes _ _ => .bytes
  | .string _ _ => .string
  | .fixed _ _ _ => .fixed
  | .enum _ _ _ => .enum
  | .union _ _ => .union
  | .array _ _ => .array
  | .map _ _ => .map
  | .record _ _ => .record
  | .date _ _ => .date
  | .set _ _ => .set
  | .lruSet _ _ _ => .lruSet
  | .optional _ _ => .optional

/-- Modelled from the spec: `SchemaKind::from(&Schema)` — the case tag of a
schema node. -/
def kindOfSchema : Schema F64 L → SchemaKind
  | .null => .null
  | .boolean => .boolean
  | .int => .int
  | .long => .long
  | .float => .float
  | .double => .double
  | .bytes => .bytes
  | .string => .string
  | .fixed _ _ => .fixed
  | .enum _ _ _ => .enum
  | .union _ => .union
  | .array _ => .array
  | .map _ => .map
  | .record _ _ _ _ => .record
  | .date => .date
  | .set => .set
  | .lruSet _ => .lruSet
  | .optional _ => .optional

/-- Modelled from the spec (§4.3 Union, §6): `UnionSchema::find_schema` — the
first branch, in declared order, whose shape (case tag) accepts the value;
`none` when no branch matches.  Returns the branch position and the branch. -/
def findSchemaFrom (i : Nat) (branches : List (Schema F64 L)) (v : Value F32 F64 L) :
    Option (Nat × Schema F64 L) :=
  match branches with
  | [] => none
  | b :: rest =>
    if kindOfSchema b == kindOfValue v then some (i, b)
    else findSchemaFrom (i + 1) rest v

/-- Modelled from the spec: `UnionSchema::find_schema`, starting at branch 0. -/
def findSchema (branches : List (Schema F64 L)) (v : Value F32 F64 L) :
    Option (Nat × Schema F64 L) :=
  findSchemaFrom 0 branches v

/-- `HashMap::remove(&key)` on the association-list model of a string-keyed
map: the stored value for the key (if any) and the map without that key. -/
def hmRemove (items : List (String × Value F32 F64 L)) (k : String) :
    Option (Value F32 F64 L) × List (String × Value F32 F64 L) :=
  match items.find? (fun p => p.1 == k) with
  | some p => (some p.2, items.filter (fun q => !(q.1 == k)))
  | none => (none, items)

/-- `iter().collect::<HashMap<_, _>>()` on an association list: sequential
insertion, later occurrences of a key overwrite earlier ones. -/
def collectHM (l : List (String × Value F32 F64 L)) : List (String × Value F32 F64 L) :=
  l.foldl (fun acc p => acc.filter (fun q => !(q.1 == p.1)) ++ [p]) []

/-- The source-mapping extraction of `Value::resolve_record` (types.rs lines
668-675): a Map is used directly, a Record is collected into a HashMap (later
duplicate field names win), anything else is an error. -/
def recordItems (v : Value F32 F64 L) : Except String (List (String × Value F32 F64 L)) :=
  match v with
  | .map items _ => .ok items
  | .record rfields _ => .ok (collectHM rfields)
  | _ => .error "Record expected"

/-- `HashSet` insertion on the string-list model (`collect::<HashSet<_>>`). -/
def hsInsert (l : List String) (s : String) : List String :=
  if l.contains s then l else l ++ [s]

mutual
/-- Schema size measure used for termination of `validate` and the resolver.
`lruSet` is given a constant weight larger than the size of the built-in
`LRU_VALUE_SCHEMA` (which `resolve_lru_value` resolves against). -/
def sSize : Schema F64 L → Nat
  | .union branches => 1 + sListSize branches
  | .array inner => 1 + sSize inner
  | .map inner => 1 + sSize inner
  | .record _ _ fields _ => 1 + fieldsSize fields
  | .optional inner => 1 + sSize inner
  | .lruSet _ => 10
  | _ => 1

/-- Size of a union branch list (each branch weighted `1 +` its size so a
member is strictly smaller than the list). -/
def sListSize : List (Schema F64 L) → Nat
  | [] => 0
  | b :: rest => 1 + sSize b + sListSize rest

/-- Size of a record field list (each field weighted `1 +` its schema's
size). -/
def fieldsSize : List (RecordField F64 L) → Nat
  | [] => 0
  | .mk _ _ _ sch _ _ _ :: rest => 1 + sSize sch + fieldsSize rest
end

mutual
/-- `impl ToAvro for JsonValue` (types.rs lines 314-339): the conversion
bridge from JSON documents to `Value`. -/
def jsonAvro : JsonValue F64 → Value F32 F64 L
  | .null => .null
  | .bool b => .boolean b none
  | .number (.i n) => .long n none
  | .number (.f x) => .double x none
  | .number (.u n) => .long (wrap64 n) none
  | .string s => .string s none
  | .array items => .array (jsonAvroList items) none
  | .object items => .map (jsonAvroObj items) none

/-- Elementwise `ToAvro` conversion of a JSON array. -/
def jsonAvroList : List (JsonValue F64) → List (Value F32 F64 L)
  | [] => []
  | x :: rest => jsonAvro x :: jsonAvroList rest

/-- Entrywise `ToAvro` conversion of a JSON object. -/
def jsonAvroObj : List (String × JsonValue F64) → List (String × Value F32 F64 L)
  | [] => []
  | (k, x) :: rest => (k, jsonAvro x) :: jsonAvroObj rest
end

/-- `impl ToAvro for LruValue` (types.rs lines 143-151). -/
def lruAvro (lv : LruValue) : Value F32 F64 L :=
  .record [("access_time", .long lv.access_time none), ("count", .long lv.count none)] none

/-- The built-in `LRU_VALUE_SCHEMA` (types.rs lines 16-29).  Modelled from the
spec: the textual schema is compiled by the external parser; §3 of the spec
fixes its shape to a two-field record `{access_time: long default 0,
count: long default 0}`. -/
def LRU_VALUE_SCHEMA : Schema F64 L :=
  .record { name := "lru_value", index := false } none
    [.mk "access_time" none (some (.number (.i 0))) .long .ascending 0 false,
     .mk "count" none (some (.number (.i 0))) .long .ascending 1 false]
    [("access_time", 0), ("count", 1)]

/-- `Value::resolve_null` (types.rs lines 486-493). -/
def resolveNull : Value F32 F64 L → Except String (Value F32 F64 L)
  | .null => .ok .null
  | _ => .error "Null expected"

/-- `Value::resolve_boolean` (types.rs lines 495-502). -/
def resolveBoolean (v : Value F32 F64 L) (index : Bool) : Except String (Value F32 F64 L) :=
  match v with
  | .boolean b _ => .ok (.boolean b (getValueSetting index))
  | _ => .error "Boolean expected"

/-- `Value::resolve_int` (types.rs lines 504-512); the `Long` source is
narrowed with `n as i32` (two's-complement truncation). -/
def resolveInt (v : Value F32 F64 L) (index : Bool) : Except String (Value F32 F64 L) :=
  match v with
  | .int n _ => .ok (.int n (getValueSetting index))
  | .long n _ => .ok (.int (wrap32 n) (getValueSetting index))
  | _ => .error "Int expected"

/-- `Value::resolve_long` (types.rs lines 514-522). -/
def resolveLong (v : Value F32 F64 L) (index : Bool) : Except String (Value F32 F64 L) :=
  match v with
  | .int n _ => .ok (.long n (getValueSetting index))
  | .long n _ => .ok (.long n (getValueSetting index))
  | _ => .error "Long expected"

/-- `Value::resolve_float` (types.rs lines 524-534). -/
def resolveFloat (E : HostFns F32 F64) (v : Value F32 F64 L) (index : Bool) :
    Except String (Value F32 F64 L) :=
  match v with
  | .int n _ => .ok (.float (E.i32AsF32 n) (getValueSetting index))
  | .long n _ => .ok (.float (E.i64AsF32 n) (getValueSetting index))
  | .float x _ => .ok (.float x (getValueSetting index))
  | .double x _ => .ok (.float (E.f64AsF32 x) (getValueSetting index))
  | _ => .error "Float expected"

/-- `Value::resolve_double` (types.rs lines 536-546). -/
def resolveDouble (E : HostFns F32 F64) (v : Value F32 F64 L) (index : Bool) :
    Except String (Value F32 F64 L) :=
  match v with
  | .int n _ => .ok (.double (E.i32AsF64 n) (getValueSetting index))
  | .long n _ => .ok (.double (E.i64AsF64 n) (getValueSetting index))
  | .float x _ => .ok (.double (E.f32AsF64 x) (getValueSetting index))
  | .double x _ => .ok (.double x (getValueSetting index))
  | _ => .error "Double expected"

/-- `Value::resolve_string` (types.rs lines 565-573): `String` verbatim,
`Bytes` decoded with `String::from_utf8` (error on invalid UTF-8). -/
def resolveString (E : HostFns F32 F64) (v : Value F32 F64 L) (index : Bool) :
    Except String (Value F32 F64 L) :=
  match v with
  | .string s _ => .ok (.string s (getValueSetting index))
  | .bytes b _ =>
    match E.utf8Decode b with
    | some s => .ok (.string s (getValueSetting index))
    | none => .error "invalid utf-8"
  | _ => .error "String expected"

/-- `Value::resolve_fixed` (types.rs lines 575-589). -/
def resolveFixed (v : Value F32 F64 L) (size : Nat) (index : Bool) :
    Except String (Value F32 F64 L) :=
  match v with
  | .fixed n b _ =>
    if n == size then .ok (.fixed n b (getValueSetting index))
    else .error "Fixed size mismatch"
  | _ => .error "String expected"

/-- `iter().position(|item| item == &symbol)`: first index of a symbol in the
symbol list. -/
def symPos (symbols : List String) (s : String) : Option Nat :=
  match symbols with
  | [] => none
  | x :: rest => if x == s then some 0 else (symPos rest s).map (· + 1)

/-- `Value::resolve_enum` (types.rs lines 591-619): a `String` is looked up by
name; an `Enum` must have its old index in range and is then re-resolved by
symbol name. -/
def resolveEnum (v : Value F32 F64 L) (symbols : List String) (index : Bool) :
    Except String (Value F32 F64 L) :=
  let validateSymbol := fun (symbol : String) =>
    match symPos symbols symbol with
    | some i => Except.ok (Value.enum (Int.ofNat i) symbol (getValueSetting index) : Value F32 F64 L)
    | none => Except.error "Enum default is not among allowed symbols"
  match v with
  | .enum i s _ =>
    if 0 ≤ i ∧ i < (symbols.length : Int) then validateSymbol s
    else .error "Enum value is out of bound"
  | .string s _ => validateSymbol s
  | _ => .error "Enum expected"

/-- `Value::resolve_datetime` (types.rs lines 709-730): `Long`/`Date`
verbatim, a `String` parsed as RFC 3339 then RFC 2822. -/
def resolveDatetime (E : HostFns F32 F64) (v : Value F32 F64 L) (index : Bool) :
    Except String (Value F32 F64 L) :=
  match v with
  | .long val _ => .ok (.date val (getValueSetting index))
  | .date val _ => .ok (.date val (getValueSetting index))
  | .string val _ =>
    match E.parse3339Millis val with
    | some epoch => .ok (.date epoch (getValueSetting index))
    | none =>
      match E.parse2822Millis val with
      | some epoch => .ok (.date epoch (getValueSetting index))
      | none => .error "Couldn't resolve string value to date"
  | _ => .error "Date expected"

/-- The element loop of `Value::resolve_set`: every element must literally be
a `String`; the strings are collected into a `HashSet` (first-occurrence
deduplication on the list model). -/
def collectSetStrings (acc : List String) (items : List (Value F32 F64 L)) :
    Except String (List String) :=
  match items with
  | [] => .ok acc
  | .string s _ :: rest => collectSetStrings (hsInsert acc s) rest
  | _ :: _ => .error "String expected"

/-- `Value::resolve_set` (types.rs lines 732-753). -/
def resolveSet (v : Value F32 F64 L) (index : Bool) : Except String (Value F32 F64 L) :=
  match v with
  | .array items _ =>
    match collectSetStrings [] items with
    | .ok ss => .ok (.set ss (getValueSetting index))
    | .error e => .error e
  | .set items _ => .ok (.set items (getValueSetting index))
  | _ => .error "Set expected"

/-- The field-extraction loop of `Value::resolve_lru_value`
(types.rs lines 759-779). -/
def lruFromFields (fields : List (String × Value F32 F64 L)) : LruValue :=
  fields.foldl
    (fun acc p =>
      match p with
      | ("access_time", .long v _) => { acc with access_time := v }
      | ("count", .long v _) => { acc with count := v }
      | _ => acc)
    { access_time := 0, count := 0 }

mutual
/-- `Value::validate` (types.rs lines 346-402): the pure structural check of a
value against a schema, no coercion, only true/false.  The source matches on
the (value, schema) pair; here the match is nested (schema outside, value
inside), arm for arm the same table. -/
def validate (v : Value F32 F64 L) (schema : Schema F64 L) : Bool :=
  match schema with
  | .null =>
    match v with
    | .null => true
    | _ => false
  | .boolean =>
    match v with
    | .boolean _ _ => true
    | _ => false
  | .int =>
    match v with
    | .int _ _ => true
    | _ => false
  | .long =>
    match v with
    | .long _ _ => true
    | _ => false
  | .float =>
    match v with
    | .float _ _ => true
    | _ => false
  | .double =>
    match v with
    | .double _ _ => true
    | _ => false
  | .bytes =>
    match v with
    | .bytes _ _ => true
    | _ => false
  | .string =>
    match v with
    | .string _ _ => true
    | _ => false
  | .fixed size _ =>
    match v with
    | .fixed n _ _ => n == size
    | _ => false
  | .enum _ _ symbols =>
    match v with
    | .string s _ => symbols.contains s
    | .enum i s _ =>
      -- `symbols.get(i as usize)`: a negative i32 casts to a huge usize, so
      -- the lookup yields none and the arm is false.
      if i < 0 then false
      else
        match symbols.get? i.toNat with
        | some symbol => symbol == s
        | none => false
    | _ => false
  | .union branches =>
    match v with
    | .union value _ => (findSchema branches value).isSome
    | _ => false
  | .array inner =>
    match v with
    | .array items _ => items.all (fun item => validate item inner)
    | _ => false
  | .map inner =>
    match v with
    | .map items _ => items.all (fun p => validate p.2 inner)
    | _ => false
  | .record _ _ fields _ =>
    match v with
    | .record record_fields _ => validateFields fields record_fields
    | _ => false
  | .date =>
    match v with
    | .date _ _ => true
    | _ => false
  | .set =>
    match v with
    | .set _ _ => true
    | _ => false
  | .lruSet _ =>
    match v with
    | .lruSet _ _ _ => true
    | _ => false
  | .optional inner =>
    match v with
    | .optional (some w) _ => validate w inner
    | .optional none _ => true
    | _ => false

/-- The record arm of `Value::validate`: field count equality plus the zipped
per-field check `field.name == name && value.validate(&field.schema)`,
written as simultaneous list recursion. -/
def validateFields (fields : List (RecordField F64 L))
    (record_fields : List (String × Value F32 F64 L)) : Bool :=
  match fields, record_fields with
  | [], [] => true
  | .mk fname _ _ fschema _ _ _ :: frest, (name, value) :: vrest =>
    fname == name && validate value fschema && validateFields frest vrest
  | _, _ => false
end

/-- The union-unwrap preamble shared by `resolve` and `resolve_internal`
(types.rs lines 411-421 and 452-462): if the source value is a `Union` and the
target schema is not, pull out the inner value (the `unreachable!` arm is
modelled as the identity; it is guarded by the kind check). -/
def unwrapU (v : Value F32 F64 L) (schema : Schema F64 L) : Value F32 F64 L :=
  if kindOfValue v == SchemaKind.union && !(kindOfSchema schema == SchemaKind.union) then
    match v with
    | .union b _ => b
    | w => w
  else v

theorem value_sizeOf_pos (v : Value F32 F64 L) : 0 < sizeOf v := by
  cases v <;> simp

theorem sizeOf_unwrapU_le (v : Value F32 F64 L) (schema : Schema F64 L) :
    sizeOf (unwrapU v schema) ≤ sizeOf v := by
  unfold unwrapU
  split
  · cases v <;> simp <;> omega
  · omega

theorem fieldsSize_cons (f : RecordField F64 L) (rest : List (RecordField F64 L)) :
    fieldsSize (f :: rest) = 1 + sSize f.schema + fieldsSize rest := by
  cases f
  simp [fieldsSize, RecordField.schema]

theorem findSchemaFrom_size (i : Nat) (branches : List (Schema F64 L))
    (v : Value F32 F64 L) (p : Nat × Schema F64 L)
    (h : findSchemaFrom i branches v = some p) : sSize p.2 < sListSize branches := by
  induction branches generalizing i with
  | nil => simp [findSchemaFrom] at h
  | cons b rest ih =>
    rw [findSchemaFrom] at h
    split at h
    · cases h
      simp [sListSize]
      omega
    · have := ih (i + 1) h
      simp [sListSize]
      omega

theorem findSchema_size (branches : List (Schema F64 L)) (v : Value F32 F64 L)
    (p : Nat × Schema F64 L) (h : findSchema branches v = some p) :
    sSize p.2 < sListSize branches :=
  findSchemaFrom_size 0 branches v p h

theorem sSize_LRU : sSize (LRU_VALUE_SCHEMA : Schema F64 L) = 5 := rfl

theorem lex3_fst {a b c a2 b2 c2 : Nat} (h : a < a2) :
    Prod.Lex (fun x y => x < y) (Prod.Lex (fun x y => x < y) (fun x y => x < y))
      (a, b, c) (a2, b2, c2) :=
  Prod.Lex.left _ _ h

theorem lex3_snd {a b c b2 c2 : Nat} (hb : b < b2) :
    Prod.Lex (fun x y => x < y) (Prod.Lex (fun x y => x < y) (fun x y => x < y))
      (a, b, c) (a, b2, c2) :=
  Prod.Lex.right _ (Prod.Lex.left _ _ hb)

theorem lex3_thd {a b c c2 : Nat} (hc : c < c2) :
    Prod.Lex (fun x y => x < y) (Prod.Lex (fun x y => x < y) (fun x y => x < y))
      (a, b, c) (a, b, c2) :=
  Prod.Lex.right _ (Prod.Lex.right _ hc)

theorem lex3_le_snd {a b c b2 c2 : Nat} (hb : b ≤ b2) (hc : c < c2) :
    Prod.Lex (fun x y => x < y) (Prod.Lex (fun x y => x < y) (fun x y => x < y))
      (a, b, c) (a, b2, c2) := by
  rcases lt_or_eq_of_le hb with h | h
  · exact lex3_snd h
  · subst h
    exact lex3_thd hc

mutual

/-- `Value::resolve` (types.rs lines 410-443): the public entry point; the
DIFFS from `resolve_internal` are only the literal `false` index flags. -/
def resolve (E : HostFns F32 F64) (v : Value F32 F64 L) (schema : Schema F64 L) :
    Except String (Value F32 F64 L) :=
  let v2 := unwrapU v schema
  match schema with
  | .null => resolveNull v2
  | .boolean => resolveBoolean v2 false
  | .int => resolveInt v2 false
  | .long => resolveLong v2 false
  | .float => resolveFloat E v2 false
  | .double => resolveDouble E v2 false
  | .bytes => resolveBytes E v2 false
  | .string => resolveString E v2 false
  | .fixed size _ => resolveFixed v2 size false
  | .union branches => resolveUnion E v2 branches false
  | .enum _ _ symbols => resolveEnum v2 symbols false
  | .array inner => resolveArray E v2 inner false
  | .map inner => resolveMap E v2 inner false
  | .record name _ fields _ => resolveRecord E v2 fields name.index
  | .date => resolveDatetime E v2 false
  | .set => resolveSet v2 false
  | .lruSet limit => resolveLruSet E v2 limit false
  | .optional inner => resolveOptional E v2 inner false
termination_by (sSize schema, sizeOf v, 3)
decreasing_by all_goals
  first
  | (apply lex3_fst <;> simp [sSize] <;> omega)
  | (apply lex3_le_snd (sizeOf_unwrapU_le v schema) <;> omega)

/-- `Value::resolve_internal` (types.rs lines 451-484): union-unwrap preamble
followed by the dispatch on the target schema case. -/
def resolveInternal (E : HostFns F32 F64) (v : Value F32 F64 L) (schema : Schema F64 L)
    (index : Bool) : Except String (Value F32 F64 L) :=
  resolveDispatch E (unwrapU v schema) schema index
termination_by (sSize schema, sizeOf v, 3)
decreasing_by apply lex3_le_snd (sizeOf_unwrapU_le v schema) <;> omega

/-- The `match *schema` dispatch of `Value::resolve_internal` (types.rs lines
463-483); note which arms forward the caller's `index` flag and which pass a
literal `false` (Int/Long/Float/Double/Bytes/Fixed/Union), and that the
record arm uses the schema's own `name.index`. -/
def resolveDispatch (E : HostFns F32 F64) (v : Value F32 F64 L) (schema : Schema F64 L)
    (index : Bool) : Except String (Value F32 F64 L) :=
  match schema with
  | .null => resolveNull v
  | .boolean => resolveBoolean v index
  | .int => resolveInt v false
  | .long => resolveLong v false
  | .float => resolveFloat E v false
  | .double => resolveDouble E v false
  | .bytes => resolveBytes E v false
  | .string => resolveString E v index
  | .fixed size _ => resolveFixed v size false
  | .union branches => resolveUnion E v branches false
  | .enum _ _ symbols => resolveEnum v symbols index
  | .array inner => resolveArray E v inner index
  | .map inner => resolveMap E v inner index
  | .record name _ fields _ => resolveRecord E v fields name.index
  | .date => resolveDatetime E v index
  | .set => resolveSet v index
  | .lruSet limit => resolveLruSet E v limit index
  | .optional inner => resolveOptional E v inner index
termination_by (sSize schema, sizeOf v, 2)
decreasing_by all_goals
  first
  | (apply lex3_fst <;> simp [sSize] <;> omega)
  | (apply lex3_le_snd (Nat.le_refl _) <;> omega)

/-- `Value::resolve_union` (types.rs lines 621-633): decompose a union source,
find the first matching branch (`find_schema`: the first kind-matching branch
in declared order), resolve against it (the result is NOT re-wrapped into a
`Value::Union`).  The `find_schema`-then-resolve composition is fused into the
branch loop `resolveUnionGo` for termination bookkeeping; the lemma
`resolveUnion_eq` below recovers the compositional form. -/
def resolveUnion (E : HostFns F32 F64) (v : Value F32 F64 L)
    (branches : List (Schema F64 L)) (index : Bool) : Except String (Value F32 F64 L) :=
  match v with
  | .union w _ => resolveUnionGo E w branches index
  | w => resolveUnionGo E w branches index
termination_by (sListSize branches, sizeOf v, 3)
decreasing_by all_goals (apply lex3_le_snd <;> simp <;> omega)

/-- The branch loop of `resolve_union`: the first branch whose kind accepts
the decomposed value resolves it; no match is an error. -/
def resolveUnionGo (E : HostFns F32 F64) (w : Value F32 F64 L)
    (branches : List (Schema F64 L)) (index : Bool) : Except String (Value F32 F64 L) :=
  match branches with
  | [] => .error "Could not find matching type in union"
  | b :: rest =>
    if kindOfSchema b == kindOfValue w then resolveInternal E w b index
    else resolveUnionGo E w rest index
termination_by (sListSize branches, sizeOf w, 2)
decreasing_by all_goals (apply lex3_fst <;> simp [sListSize] <;> omega)

/-- `Value::resolve_array` (types.rs lines 635-649). -/
def resolveArray (E : HostFns F32 F64) (v : Value F32 F64 L) (inner : Schema F64 L)
    (index : Bool) : Except String (Value F32 F64 L) :=
  match v with
  | .array items _ =>
    match resolveElems E items inner index with
    | .ok rs => .ok (.array rs (getValueSetting index))
    | .error e => .error e
  | _ => .error "Array expected"
termination_by (sSize inner, sizeOf v, 3)
decreasing_by apply lex3_snd <;> simp <;> omega

/-- The element loop of `resolve_array` (`collect::<Result<Vec<_>, _>>`). -/
def resolveElems (E : HostFns F32 F64) (items : List (Value F32 F64 L))
    (inner : Schema F64 L) (index : Bool) : Except String (List (Value F32 F64 L)) :=
  match items with
  | [] => .ok []
  | x :: rest =>
    match resolveInternal E x inner index with
    | .ok v1 =>
      match resolveElems E rest inner index with
      | .ok vs => .ok (v1 :: vs)
      | .error e => .error e
    | .error e => .error e
termination_by (sSize inner, sizeOf items, 3)
decreasing_by all_goals (apply lex3_snd <;> simp <;> omega)

/-- `Value::resolve_map` (types.rs lines 651-665). -/
def resolveMap (E : HostFns F32 F64) (v : Value F32 F64 L) (inner : Schema F64 L)
    (index : Bool) : Except String (Value F32 F64 L) :=
  match v with
  | .map items _ =>
    match resolveMapVals E items inner index with
    | .ok rs => .ok (.map rs (getValueSetting index))
    | .error e => .error e
  | _ => .error "Map expected"
termination_by (sSize inner, sizeOf v, 3)
decreasing_by apply lex3_snd <;> simp <;> omega

/-- The entry loop of `resolve_map` (keys pass through unchanged). -/
def resolveMapVals (E : HostFns F32 F64) (entries : List (String × Value F32 F64 L))
    (inner : Schema F64 L) (index : Bool) :
    Except String (List (String × Value F32 F64 L)) :=
  match entries with
  | [] => .ok []
  | (k, value) :: rest =>
    match resolveInternal E value inner index with
    | .ok v1 =>
      match resolveMapVals E rest inner index with
      | .ok vs => .ok ((k, v1) :: vs)
      | .error e => .error e
    | .error e => .error e
termination_by (sSize inner, sizeOf entries, 3)
decreasing_by all_goals (apply lex3_snd <;> simp <;> omega)

/-- `Value::resolve_record` (types.rs lines 667-705): a Map source is used as
the name-to-value mapping directly, a Record source is first collected into a
HashMap (later duplicates win); then the target fields are processed in schema
order. -/
def resolveRecord (E : HostFns F32 F64) (v : Value F32 F64 L)
    (fields : List (RecordField F64 L)) (index : Bool) :
    Except String (Value F32 F64 L) :=
  match recordItems v with
  | .ok items =>
    match resolveFieldList E items fields with
    | .ok nf => .ok (.record nf (getValueSetting index))
    | .error e => .error e
  | .error e => .error e
termination_by (fieldsSize fields, sizeOf v, 3)
decreasing_by apply lex3_le_snd (Nat.zero_le _) <;> omega

/-- The per-target-field loop of `resolve_record`: remove the field by name
from the source mapping; fall back to the declared default (an Enum-typed
default is first resolved against the enum's symbols); fail when absent with
no default; then resolve the obtained value against the field schema with the
field's own index flag. -/
def resolveFieldList (E : HostFns F32 F64) (items : List (String × Value F32 F64 L))
    (fields : List (RecordField F64 L)) :
    Except String (List (String × Value F32 F64 L)) :=
  match fields with
  | [] => .ok []
  | f :: rest =>
    let r := hmRemove items f.name
    match (match r.1 with
           | some value => Except.ok value
           | none =>
             match f.default with
             | some d =>
               match f.schema with
               | .enum _ _ symbols => resolveEnum (jsonAvro d) symbols f.index
               | _ => Except.ok (jsonAvro d)
             | none => Except.error "missing field in record") with
    | .ok value =>
      match resolveInternal E value f.schema f.index with
      | .ok v1 =>
        match resolveFieldList E r.2 rest with
        | .ok nf => .ok ((f.name, v1) :: nf)
        | .error e => .error e
      | .error e => .error e
    | .error e => .error e
termination_by (fieldsSize fields, 0, 0)
decreasing_by all_goals (apply lex3_fst <;> rw [fieldsSize_cons] <;> omega)

/-- `Value::resolve_bytes` (types.rs lines 548-563): `Bytes` verbatim,
`String` re-encoded as UTF-8, or an `Array` of byte-sized ints. -/
def resolveBytes (E : HostFns F32 F64) (v : Value F32 F64 L) (index : Bool) :
    Except String (Value F32 F64 L) :=
  match v with
  | .bytes b _ => .ok (.bytes b (getValueSetting index))
  | .string s _ => .ok (.bytes (E.utf8Encode s) (getValueSetting index))
  | .array items _ =>
    match tryU8List E items with
    | .ok bs => .ok (.bytes bs (getValueSetting index))
    | .error e => .error e
  | _ => .error "Bytes expected"
termination_by (1, sizeOf v, 1)
decreasing_by apply lex3_snd <;> simp <;> omega

/-- The element loop of the `Array` arm of `resolve_bytes`. -/
def tryU8List (E : HostFns F32 F64) (items : List (Value F32 F64 L)) :
    Except String (List Nat) :=
  match items with
  | [] => .ok []
  | x :: rest =>
    match tryU8 E x with
    | .ok b =>
      match tryU8List E rest with
      | .ok bs => .ok (b :: bs)
      | .error e => .error e
    | .error e => .error e
termination_by (1, sizeOf items, 4)
decreasing_by all_goals (apply lex3_snd <;> simp <;> omega)

/-- `Value::try_u8` (types.rs lines 858-871): resolve the element against
`Schema::Int` and range-check the result to 0..=255 (the annotation must be
absent, which `resolve` guarantees for Int results). -/
def tryU8 (E : HostFns F32 F64) (v : Value F32 F64 L) : Except String Nat :=
  match resolve E v .int with
  | .ok i =>
    match i with
    | .int n none => if 0 ≤ n ∧ n ≤ 255 then .ok n.toNat else .error "Unable to convert to u8"
    | _ => .error "Unable to convert to u8"
  | .error e => .error e
termination_by (1, sizeOf v, 4)
decreasing_by apply lex3_le_snd (Nat.le_refl _) <;> omega

/-- `Value::resolve_lru_value` (types.rs lines 755-784): resolve against the
built-in `LRU_VALUE_SCHEMA` and extract the two long fields. -/
def resolveLruValue (E : HostFns F32 F64) (v : Value F32 F64 L) :
    Except String LruValue :=
  match resolveInternal E v LRU_VALUE_SCHEMA false with
  | .ok resolved =>
    match resolved with
    | .record rfields _ => .ok (lruFromFields rfields)
    | _ => .error "Expected LruValue record"
  | .error e => .error e
termination_by (6, sizeOf v, 4)
decreasing_by apply lex3_fst <;> rw [sSize_LRU] <;> omega

/-- The entry loop of `resolve_lru_set`. -/
def resolveLruEntries (E : HostFns F32 F64) (entries : List (String × Value F32 F64 L)) :
    Except String (List (String × LruValue)) :=
  match entries with
  | [] => .ok []
  | (k, value) :: rest =>
    match resolveLruValue E value with
    | .ok lv =>
      match resolveLruEntries E rest with
      | .ok lvs => .ok ((k, lv) :: lvs)
      | .error e => .error e
    | .error e => .error e
termination_by (10, sizeOf entries, 4)
decreasing_by all_goals
  first
  | (apply lex3_fst <;> omega)
  | (apply lex3_snd <;> simp <;> omega)

/-- `Value::resolve_lru_set` (types.rs lines 786-801): a Map source has every
value resolved to an `LruValue`; an `LruSet` passes through; in both cases the
target schema's `lru_limit` replaces the source's. -/
def resolveLruSet (E : HostFns F32 F64) (v : Value F32 F64 L) (limit : L)
    (index : Bool) : Except String (Value F32 F64 L) :=
  match v with
  | .map items _ =>
    match resolveLruEntries E items with
    | .ok rs => .ok (.lruSet rs limit (getValueSetting index))
    | .error e => .error e
  | .lruSet items _ _ => .ok (.lruSet items limit (getValueSetting index))
  | _ => .error "LruSet expected"
termination_by (10, sizeOf v, 1)
decreasing_by apply lex3_snd <;> simp <;> omega

/-- `Value::resolve_optional` (types.rs lines 803-818): an `Optional` source
passes its presence state through; a bare value counts as present; a present
inner value is resolved with `resolve` against the inner schema. -/
def resolveOptional (E : HostFns F32 F64) (v : Value F32 F64 L) (inner : Schema F64 L)
    (index : Bool) : Except String (Value F32 F64 L) :=
  match v with
  | .optional (some w) _ =>
    match resolve E w inner with
    | .ok r => .ok (.optional (some r) (getValueSetting index))
    | .error e => .error e
  | .optional none _ => .ok (.optional none (getValueSetting index))
  | w =>
    match resolve E w inner with
    | .ok r => .ok (.optional (some r) (getValueSetting index))
    | .error e => .error e
termination_by (sSize inner, sizeOf v, 4)
decreasing_by all_goals
  first
  | (apply lex3_snd <;> simp <;> omega)
  | (apply lex3_le_snd (Nat.le_refl _) <;> omega)

end

/-! ### Structural predicates used by the main theorems -/

mutual
/-- `s` contains no `Union` schema node anywhere. -/
def unionFree : Schema F64 L → Bool
  | .union _ => false
  | .array inner => unionFree inner
  | .map inner => unionFree inner
  | .optional inner => unionFree inner
  | .record _ _ fields _ => ufFields fields
  | _ => true

/-- `unionFree` on every schema of a record field list. -/
def ufFields : List (RecordField F64 L) → Bool
  | [] => true
  | .mk _ _ _ sch _ _ _ :: rest => unionFree sch && ufFields rest
end

/-- No string occurs twice in the list. -/
def nodupNames : List String → Bool
  | [] => true
  | x :: rest => !(rest.contains x) && nodupNames rest

mutual
/-- Every record schema node in `s` declares pairwise-distinct field names
(guaranteed for schemas produced by the external parser). -/
def recNodup : Schema F64 L → Bool
  | .array inner => recNodup inner
  | .map inner => recNodup inner
  | .optional inner => recNodup inner
  | .union branches => rnBranches branches
  | .record _ _ fields _ => nodupNames (fields.map RecordField.name) && rnFields fields
  | _ => true

/-- `recNodup` on every branch of a union. -/
def rnBranches : List (Schema F64 L) → Bool
  | [] => true
  | s :: rest => recNodup s && rnBranches rest

/-- `recNodup` on every schema of a record field list. -/
def rnFields : List (RecordField F64 L) → Bool
  | [] => true
  | .mk _ _ _ sch _ _ _ :: rest => recNodup sch && rnFields rest
end

/-- The §3 discipline for a single encoding annotation: absent, or present
with `index = true` (the only form `get_value_setting` produces). -/
def annOk : Option ValueSetting → Bool
  | none => true
  | some vs => vs.index

mutual
/-- The deep annotation invariant of §3/§4.3: every `Int`, `Long`, `Float`,
`Double`, `Bytes`, `Fixed` and `Union` node carries an absent annotation, and
every annotation present anywhere is `ValueSetting {index: true}`. -/
def annInvariant : Value F32 F64 L → Bool
  | .null => true
  | .boolean _ a => annOk a
  | .int _ a => a.isNone
  | .long _ a => a.isNone
  | .float _ a => a.isNone
  | .double _ a => a.isNone
  | .bytes _ a => a.isNone
  | .string _ a => annOk a
  | .fixed _ _ a => a.isNone
  | .enum _ _ a => annOk a
  | .union w a => a.isNone && annInvariant w
  | .array items a => annOk a && annList items
  | .map items a => annOk a && annKV items
  | .record fields a => annOk a && annKV fields
  | .date _ a => annOk a
  | .set _ a => annOk a
  | .lruSet _ _ a => annOk a
  | .optional o a =>
    annOk a &&
      (match o with
       | some w => annInvariant w
       | none => true)

/-- `annInvariant` on every element of a value list. -/
def annList : List (Value F32 F64 L) → Bool
  | [] => true
  | x :: rest => annInvariant x && annList rest

/-- `annInvariant` on every value of a name-value list. -/
def annKV : List (String × Value F32 F64 L) → Bool
  | [] => true
  | (_, x) :: rest => annInvariant x && annKV rest
end

/-! ### The Record builder (types.rs lines 258-312) -/

/-- The name-to-position lookup (`schema_lookup.get(field)` on the HashMap
borrowed from the schema). -/
def lookupPos (lookup : List (String × Nat)) (field : String) : Option Nat :=
  (lookup.find? (fun p => p.1 == field)).map Prod.snd

/-- `self.fields[position].1 = value`: replace the value at `position`,
keeping the field name (out-of-range positions leave the list unchanged where
Rust would panic; `put` only indexes positions from the schema lookup). -/
def setFieldValue : List (String × Value F32 F64 L) → Nat → Value F32 F64 L →
    List (String × Value F32 F64 L)
  | [], _, _ => []
  | (k, _) :: rest, 0, value => (k, value) :: rest
  | p :: rest, n + 1, value => p :: setFieldValue rest n value

/-- The `Record` builder of types.rs (lines 258-312): an ordered field list
pre-populated by `Record::new`, plus the read-only name-to-position lookup
borrowed from the schema. -/
structure RecordBuilder (F32 F64 L : Type) where
  fields : List (String × Value F32 F64 L)
  schemaLookup : List (String × Nat)

/-- `Record::new` (types.rs lines 272-291): every field starts as `Null`. -/
def RecordBuilder.new (schema : Schema F64 L) : Option (RecordBuilder F32 F64 L) :=
  match schema with
  | .record _ _ fields lookup => some ⟨fields.map (fun f => (f.name, .null)), lookup⟩
  | _ => none

/-- `Record::put` (types.rs lines 298-306): set the field's value when the
name is present in the schema lookup; silently do nothing otherwise.  The
`ToAvro` conversion of the argument is modelled by passing the converted
`Value` directly. -/
def RecordBuilder.put (r : RecordBuilder F32 F64 L) (field : String)
    (value : Value F32 F64 L) : RecordBuilder F32 F64 L :=
  match lookupPos r.schemaLookup field with
  | some position => { r with fields := setFieldValue r.fields position value }
  | none => r

def unitHost : HostFns Unit Unit :=
  ⟨fun _ => (), fun _ => (), fun _ => (), fun _ => (), fun _ => (), fun _ => (),
   fun _ => none, fun _ => none, fun _ => [], fun _ => none⟩

/-! ### Step equations for the resolver

The resolver is compiled by well-founded recursion, so its definitional
unfolding is blocked; the lemmas below restate each function's one-step
behaviour in a form that `simp` can apply without looping (every recursive
occurrence on the right is guarded by a constructor pattern). -/

theorem resolveInternal_unfold (E : HostFns F32 F64) (v : Value F32 F64 L)
    (s : Schema F64 L) (idx : Bool) :
    resolveInternal E v s idx = resolveDispatch E (unwrapU v s) s idx := by
  rw [resolveInternal]

theorem resolveDispatch_null (E : HostFns F32 F64) (v : Value F32 F64 L) (idx : Bool) :
    resolveDispatch E v .null idx = resolveNull v := by rw [resolveDispatch.eq_def]

theorem resolveDispatch_boolean (E : HostFns F32 F64) (v : Value F32 F64 L) (idx : Bool) :
    resolveDispatch E v .boolean idx = resolveBoolean v idx := by rw [resolveDispatch.eq_def]

theorem resolveDispatch_int (E : HostFns F32 F64) (v : Value F32 F64 L) (idx : Bool) :
    resolveDispatch E v .int idx = resolveInt v false := by rw [resolveDispatch.eq_def]

theorem resolveDispatch_long (E : HostFns F32 F64) (v : Value F32 F64 L) (idx : Bool) :
    resolveDispatch E v .long idx = resolveLong v false := by rw [resolveDispatch.eq_def]

theorem resolveDispatch_float (E : HostFns F32 F64) (v : Value F32 F64 L) (idx : Bool) :
    resolveDispatch E v .float idx = resolveFloat E v false := by rw [resolveDispatch.eq_def]

theorem resolveDispatch_double (E : HostFns F32 F64) (v : Value F32 F64 L) (idx : Bool) :
    resolveDispatch E v .double idx = resolveDouble E v false := by rw [resolveDispatch.eq_def]

theorem resolveDispatch_bytes (E : HostFns F32 F64) (v : Value F32 F64 L) (idx : Bool) :
    resolveDispatch E v .bytes idx = resolveBytes E v false := by rw [resolveDispatch.eq_def]

theorem resolveDispatch_string (E : HostFns F32 F64) (v : Value F32 F64 L) (idx : Bool) :
    resolveDispatch E v .string idx = resolveString E v idx := by rw [resolveDispatch.eq_def]

theorem resolveDispatch_fixed (E : HostFns F32 F64) (v : Value F32 F64 L) (size : Nat)
    (name : Name) (idx : Bool) :
    resolveDispatch E v (.fixed size name) idx = resolveFixed v size false := by
  rw [resolveDispatch.eq_def]

theorem resolveDispatch_union (E : HostFns F32 F64) (v : Value F32 F64 L)
    (branches : List (Schema F64 L)) (idx : Bool) :
    resolveDispatch E v (.union branches) idx = resolveUnion E v branches false := by
  rw [resolveDispatch.eq_def]

theorem resolveDispatch_enum (E : HostFns F32 F64) (v : Value F32 F64 L) (name : Name)
    (doc : Option String) (symbols : List String) (idx : Bool) :
    resolveDispatch E v (.enum name doc symbols) idx = resolveEnum v symbols idx := by
  rw [resolveDispatch.eq_def]

theorem resolveDispatch_array (E : HostFns F32 F64) (v : Value F32 F64 L)
    (inner : Schema F64 L) (idx : Bool) :
    resolveDispatch E v (.array inner) idx = resolveArray E v inner idx := by
  rw [resolveDispatch.eq_def]

theorem resolveDispatch_map (E : HostFns F32 F64) (v : Value F32 F64 L)
    (inner : Schema F64 L) (idx : Bool) :
    resolveDispatch E v (.map inner) idx = resolveMap E v inner idx := by
  rw [resolveDispatch.eq_def]

theorem resolveDispatch_record (E : HostFns F32 F64) (v : Value F32 F64 L) (name : Name)
    (doc : Option String) (fields : List (RecordField F64 L))
    (lookup : List (String × Nat)) (idx : Bool) :
    resolveDispatch E v (.record name doc fields lookup) idx
      = resolveRecord E v fields name.index := by
  rw [resolveDispatch.eq_def]

theorem resolveDispatch_date (E : HostFns F32 F64) (v : Value F32 F64 L) (idx : Bool) :
    resolveDispatch E v .date idx = resolveDatetime E v idx := by rw [resolveDispatch.eq_def]

theorem resolveDispatch_set (E : HostFns F32 F64) (v : Value F32 F64 L) (idx : Bool) :
    resolveDispatch E v .set idx = resolveSet v idx := by rw [resolveDispatch.eq_def]

theorem resolveDispatch_lruSet (E : HostFns F32 F64) (v : Value F32 F64 L) (limit : L)
    (idx : Bool) :
    resolveDispatch E v (.lruSet limit) idx = resolveLruSet E v limit idx := by
  rw [resolveDispatch.eq_def]

theorem resolveDispatch_optional (E : HostFns F32 F64) (v : Value F32 F64 L)
    (inner : Schema F64 L) (idx : Bool) :
    resolveDispatch E v (.optional inner) idx = resolveOptional E v inner idx := by
  rw [resolveDispatch.eq_def]

theorem unwrapU_null (s : Schema F64 L) :
    unwrapU (Value.null : Value F32 F64 L) s = .null := rfl

theorem unwrapU_boolean (b : Bool) (a : Option ValueSetting) (s : Schema F64 L) :
    unwrapU (Value.boolean b a : Value F32 F64 L) s = .boolean b a := rfl

theorem unwrapU_int (n : Int) (a : Option ValueSetting) (s : Schema F64 L) :
    unwrapU (Value.int n a : Value F32 F64 L) s = .int n a := rfl

theorem unwrapU_long (n : Int) (a : Option ValueSetting) (s : Schema F64 L) :
    unwrapU (Value.long n a : Value F32 F64 L) s = .long n a := rfl

theorem unwrapU_float (x : F32) (a : Option ValueSetting) (s : Schema F64 L) :
    unwrapU (Value.float x a : Value F32 F64 L) s = .float x a := rfl

theorem unwrapU_double (x : F64) (a : Option ValueSetting) (s : Schema F64 L) :
    unwrapU (Value.double x a : Value F32 F64 L) s = .double x a := rfl

theorem unwrapU_bytes (b : List Nat) (a : Option ValueSetting) (s : Schema F64 L) :
    unwrapU (Value.bytes b a : Value F32 F64 L) s = .bytes b a := rfl

theorem unwrapU_string (str : String) (a : Option ValueSetting) (s : Schema F64 L) :
    unwrapU (Value.string str a : Value F32 F64 L) s = .string str a := rfl

theorem unwrapU_fixed (n : Nat) (b : List Nat) (a : Option ValueSetting) (s : Schema F64 L) :
    unwrapU (Value.fixed n b a : Value F32 F64 L) s = .fixed n b a := rfl

theorem unwrapU_enum (i : Int) (str : String) (a : Option ValueSetting) (s : Schema F64 L) :
    unwrapU (Value.enum i str a : Value F32 F64 L) s = .enum i str a := rfl

theorem unwrapU_array (items : List (Value F32 F64 L)) (a : Option ValueSetting)
    (s : Schema F64 L) : unwrapU (Value.array items a) s = .array items a := rfl

theorem unwrapU_map (items : List (String × Value F32 F64 L)) (a : Option ValueSetting)
    (s : Schema F64 L) : unwrapU (Value.map items a) s = .map items a := rfl

theorem unwrapU_record (fields : List (String × Value F32 F64 L)) (a : Option ValueSetting)
    (s : Schema F64 L) : unwrapU (Value.record fields a) s = .record fields a := rfl

theorem unwrapU_date (t : Int) (a : Option ValueSetting) (s : Schema F64 L) :
    unwrapU (Value.date t a : Value F32 F64 L) s = .date t a := rfl

theorem unwrapU_set (items : List String) (a : Option ValueSetting) (s : Schema F64 L) :
    unwrapU (Value.set items a : Value F32 F64 L) s = .set items a := rfl

theorem unwrapU_lruSet (items : List (String × LruValue)) (limit : L)
    (a : Option ValueSetting) (s : Schema F64 L) :
    unwrapU (Value.lruSet items limit a : Value F32 F64 L) s = .lruSet items limit a := rfl

theorem unwrapU_optional (o : Option (Value F32 F64 L)) (a : Option ValueSetting)
    (s : Schema F64 L) : unwrapU (Value.optional o a) s = .optional o a := rfl

theorem unwrapU_union (b : Value F32 F64 L) (a : Option ValueSetting) (s : Schema F64 L) :
    unwrapU (Value.union b a) s
      = if kindOfSchema s == SchemaKind.union then .union b a else b := by
  unfold unwrapU
  cases h : kindOfSchema s == SchemaKind.union <;> simp [kindOfValue, h]

theorem resolve_eq (E : HostFns F32 F64) (v : Value F32 F64 L) (s : Schema F64 L) :
    resolve E v s = resolveInternal E v s false := by
  cases s <;>
    simp only [resolve.eq_def, resolveInternal_unfold, resolveDispatch_null,
      resolveDispatch_boolean, resolveDispatch_int, resolveDispatch_long,
      resolveDispatch_float, resolveDispatch_double, resolveDispatch_bytes,
      resolveDispatch_string, resolveDispatch_fixed, resolveDispatch_union,
      resolveDispatch_enum, resolveDispatch_array, resolveDispatch_map,
      resolveDispatch_record, resolveDispatch_date, resolveDispatch_set,
      resolveDispatch_lruSet, resolveDispatch_optional]

theorem resolveUnionGo_eq (E : HostFns F32 F64) (w : Value F32 F64 L)
    (branches : List (Schema F64 L)) (index : Bool) (i : Nat) :
    resolveUnionGo E w branches index =
      (match findSchemaFrom i branches w with
       | some p => resolveInternal E w p.2 index
       | none => .error "Could not find matching type in union") := by
  induction branches generalizing i with
  | nil =>
    rw [resolveUnionGo.eq_def]
    simp [findSchemaFrom]
  | cons b rest ih =>
    rw [resolveUnionGo.eq_def]
    simp only [findSchemaFrom]
    cases h : kindOfSchema b == kindOfValue w <;> simp [h, ih (i + 1)]

theorem resolveUnion_eq (E : HostFns F32 F64) (v : Value F32 F64 L)
    (branches : List (Schema F64 L)) (index : Bool) :
    resolveUnion E v branches index =
      (match findSchema branches (match v with | .union w _ => w | w => w) with
       | some p => resolveInternal E (match v with | .union w _ => w | w => w) p.2 index
       | none => .error "Could not find matching type in union") := by
  rw [resolveUnion.eq_def]
  cases v <;> simp only [findSchema] <;> exact resolveUnionGo_eq _ _ _ _ 0

theorem resolveUnionGo_nil (E : HostFns F32 F64) (w : Value F32 F64 L) (idx : Bool) :
    resolveUnionGo (L := L) E w [] idx = .error "Could not find matching type in union" := by
  rw [resolveUnionGo.eq_def]

theorem resolveUnionGo_cons (E : HostFns F32 F64) (w : Value F32 F64 L) (b : Schema F64 L)
    (rest : List (Schema F64 L)) (idx : Bool) :
    resolveUnionGo E w (b :: rest) idx =
      if kindOfSchema b == kindOfValue w then resolveInternal E w b idx
      else resolveUnionGo E w rest idx := by
  rw [resolveUnionGo.eq_def]

theorem resolveElems_nil (E : HostFns F32 F64) (inner : Schema F64 L) (idx : Bool) :
    resolveElems (L := L) E [] inner idx = .ok [] := by rw [resolveElems]

theorem resolveElems_cons (E : HostFns F32 F64) (x : Value F32 F64 L)
    (rest : List (Value F32 F64 L)) (inner : Schema F64 L) (idx : Bool) :
    resolveElems E (x :: rest) inner idx =
      (match resolveInternal E x inner idx with
       | .ok v1 =>
         match resolveElems E rest inner idx with
         | .ok vs => .ok (v1 :: vs)
         | .error e => .error e
       | .error e => .error e) := by rw [resolveElems]

theorem resolveMapVals_nil (E : HostFns F32 F64) (inner : Schema F64 L) (idx : Bool) :
    resolveMapVals (L := L) E [] inner idx = .ok [] := by rw [resolveMapVals]

theorem resolveMapVals_cons (E : HostFns F32 F64) (k : String) (value : Value F32 F64 L)
    (rest : List (String × Value F32 F64 L)) (inner : Schema F64 L) (idx : Bool) :
    resolveMapVals E ((k, value) :: rest) inner idx =
      (match resolveInternal E value inner idx with
       | .ok v1 =>
         match resolveMapVals E rest inner idx with
         | .ok vs => .ok ((k, v1) :: vs)
         | .error e => .error e
       | .error e => .error e) := by rw [resolveMapVals]

theorem resolveFieldList_nil (E : HostFns F32 F64)
    (items : List (String × Value F32 F64 L)) :
    resolveFieldList E items ([] : List (RecordField F64 L)) = .ok [] := by
  rw [resolveFieldList]

theorem resolveFieldList_cons (E : HostFns F32 F64)
    (items : List (String × Value F32 F64 L)) (f : RecordField F64 L)
    (rest : List (RecordField F64 L)) :
    resolveFieldList E items (f :: rest) =
      (match (match (hmRemove items f.name).1 with
              | some value => Except.ok value
              | none =>
                match f.default with
                | some d =>
                  match f.schema with
                  | .enum _ _ symbols => resolveEnum (jsonAvro d) symbols f.index
                  | _ => Except.ok (jsonAvro d)
                | none => Except.error "missing field in record") with
       | .ok value =>
         match resolveInternal E value f.schema f.index with
         | .ok v1 =>
           match resolveFieldList E (hmRemove items f.name).2 rest with
           | .ok nf => .ok ((f.name, v1) :: nf)
           | .error e => .error e
         | .error e => .error e
       | .error e => .error e) := by rw [resolveFieldList]

theorem tryU8List_nil (E : HostFns F32 F64) :
    tryU8List (L := L) E [] = .ok [] := by rw [tryU8List]

theorem tryU8List_cons (E : HostFns F32 F64) (x : Value F32 F64 L)
    (rest : List (Value F32 F64 L)) :
    tryU8List E (x :: rest) =
      (match tryU8 E x with
       | .ok b =>
         match tryU8List E rest with
         | .ok bs => .ok (b :: bs)
         | .error e => .error e
       | .error e => .error e) := by rw [tryU8List]

theorem resolveLruEntries_nil (E : HostFns F32 F64) :
    resolveLruEntries (L := L) E [] = .ok [] := by rw [resolveLruEntries]

theorem resolveLruEntries_cons (E : HostFns F32 F64) (k : String)
    (value : Value F32 F64 L) (rest : List (String × Value F32 F64 L)) :
    resolveLruEntries E ((k, value) :: rest) =
      (match resolveLruValue E value with
       | .ok lv =>
         match resolveLruEntries E rest with
         | .ok lvs => .ok ((k, lv) :: lvs)
         | .error e => .error e
       | .error e => .error e) := by rw [resolveLruEntries]

/-! ### Inversion lemmas for the leaf resolvers -/

theorem symPos_get (symbols : List String) (s : String) (i : Nat)
    (h : symPos symbols s = some i) : symbols.get? i = some s := by
  induction symbols generalizing i with
  | nil => simp [symPos] at h
  | cons x rest ih =>
    rw [symPos] at h
    split at h
    · rename_i hx
      cases h
      simp at hx
      simp [hx]
    · rcases Option.map_eq_some'.mp h with ⟨j, hj, hji⟩
      subst hji
      simpa using ih j hj

theorem symPos_lt (symbols : List String) (s : String) (i : Nat)
    (h : symPos symbols s = some i) : i < symbols.length := by
  have hg := symPos_get symbols s i h
  by_contra hlt
  push_neg at hlt
  rw [List.get?_eq_none.mpr hlt] at hg
  cases hg

theorem resolveNull_ok (w r : Value F32 F64 L) (h : resolveNull w = .ok r) :
    r = .null := by
  cases w <;> simp [resolveNull] at h
  exact h.symm

theorem resolveBoolean_ok (w r : Value F32 F64 L) (idx : Bool)
    (h : resolveBoolean w idx = .ok r) :
    ∃ b, r = .boolean b (getValueSetting idx) := by
  cases w <;> simp [resolveBoolean] at h
  exact ⟨_, h.symm⟩

theorem resolveInt_ok (w r : Value F32 F64 L) (idx : Bool)
    (h : resolveInt w idx = .ok r) :
    ∃ m, r = .int m (getValueSetting idx) := by
  cases w <;> simp [resolveInt] at h
  · exact ⟨_, h.symm⟩
  · exact ⟨_, h.symm⟩

theorem resolveLong_ok (w r : Value F32 F64 L) (idx : Bool)
    (h : resolveLong w idx = .ok r) :
    ∃ m, r = .long m (getValueSetting idx) := by
  cases w <;> simp [resolveLong] at h
  · exact ⟨_, h.symm⟩
  · exact ⟨_, h.symm⟩

theorem resolveFloat_ok (E : HostFns F32 F64) (w r : Value F32 F64 L) (idx : Bool)
    (h : resolveFloat E w idx = .ok r) :
    ∃ x, r = .float x (getValueSetting idx) := by
  cases w <;> simp [resolveFloat] at h <;> exact ⟨_, h.symm⟩

theorem resolveDouble_ok (E : HostFns F32 F64) (w r : Value F32 F64 L) (idx : Bool)
    (h : resolveDouble E w idx = .ok r) :
    ∃ x, r = .double x (getValueSetting idx) := by
  cases w <;> simp [resolveDouble] at h <;> exact ⟨_, h.symm⟩

theorem resolveString_ok (E : HostFns F32 F64) (w r : Value F32 F64 L) (idx : Bool)
    (h : resolveString E w idx = .ok r) :
    ∃ s, r = .string s (getValueSetting idx) := by
  cases w <;> simp only [resolveString] at h <;> try (exact Except.noConfusion h)
  case bytes b a =>
    split at h
    · rename_i s hs
      simp at h
      exact ⟨_, h.symm⟩
    · exact Except.noConfusion h
  case string s a =>
    simp at h
    exact ⟨_, h.symm⟩

theorem resolveFixed_ok (w r : Value F32 F64 L) (size : Nat) (idx : Bool)
    (h : resolveFixed w size idx = .ok r) :
    ∃ b, r = .fixed size b (getValueSetting idx) := by
  cases w <;> simp only [resolveFixed] at h <;> try (exact Except.noConfusion h)
  case fixed n b a =>
    split at h
    · rename_i hn
      simp at h hn
      subst hn
      exact ⟨_, h.symm⟩
    · exact Except.noConfusion h

theorem resolveEnum_ok (w r : Value F32 F64 L) (symbols : List String) (idx : Bool)
    (h : resolveEnum w symbols idx = .ok r) :
    ∃ p s0, symPos symbols s0 = some p ∧ r = .enum (Int.ofNat p) s0 (getValueSetting idx) := by
  cases w <;> simp only [resolveEnum] at h <;> try (exact Except.noConfusion h)
  case enum i s0 a =>
    split at h
    · split at h
      · rename_i p hp
        simp at h
        exact ⟨p, s0, hp, h.symm⟩
      · exact Except.noConfusion h
    · exact Except.noConfusion h
  case string s0 a =>
    split at h
    · rename_i p hp
      simp at h
      exact ⟨p, s0, hp, h.symm⟩
    · exact Except.noConfusion h

theorem resolveDatetime_ok (E : HostFns F32 F64) (w r : Value F32 F64 L) (idx : Bool)
    (h : resolveDatetime E w idx = .ok r) :
    ∃ t, r = .date t (getValueSetting idx) := by
  cases w <;> simp only [resolveDatetime] at h <;> try (exact Except.noConfusion h)
  case long n a =>
    simp at h
    exact ⟨_, h.symm⟩
  case date t a =>
    simp at h
    exact ⟨_, h.symm⟩
  case string s a =>
    split at h
    · simp at h
      exact ⟨_, h.symm⟩
    · split at h
      · simp at h
        exact ⟨_, h.symm⟩
      · exact Except.noConfusion h

theorem resolveSet_ok (w r : Value F32 F64 L) (idx : Bool)
    (h : resolveSet w idx = .ok r) :
    ∃ ss, r = .set ss (getValueSetting idx) := by
  cases w <;> simp only [resolveSet] at h <;> try (exact Except.noConfusion h)
  case array items a =>
    split at h
    · simp at h
      exact ⟨_, h.symm⟩
    · exact Except.noConfusion h
  case set items a =>
    simp at h
    exact ⟨_, h.symm⟩

theorem resolveBytes_ok (E : HostFns F32 F64) (w r : Value F32 F64 L) (idx : Bool)
    (h : resolveBytes E w idx = .ok r) :
    ∃ bs, r = .bytes bs (getValueSetting idx) := by
  rw [resolveBytes.eq_def] at h
  cases w <;> simp at h
  case bytes => exact ⟨_, h.symm⟩
  case string => exact ⟨_, h.symm⟩
  case array items a =>
    split at h
    · simp at h
      exact ⟨_, h.symm⟩
    · exact Except.noConfusion h

theorem resolveArray_ok (E : HostFns F32 F64) (w r : Value F32 F64 L)
    (inner : Schema F64 L) (idx : Bool) (h : resolveArray E w inner idx = .ok r) :
    ∃ items a rs, w = .array items a ∧ resolveElems E items inner idx = .ok rs ∧
      r = .array rs (getValueSetting idx) := by
  rw [resolveArray.eq_def] at h
  cases w <;> simp at h
  rename_i items a
  split at h
  · rename_i rs hrs
    simp at h
    exact ⟨items, a, rs, rfl, hrs, h.symm⟩
  · exact Except.noConfusion h

theorem resolveMap_ok (E : HostFns F32 F64) (w r : Value F32 F64 L)
    (inner : Schema F64 L) (idx : Bool) (h : resolveMap E w inner idx = .ok r) :
    ∃ items a rs, w = .map items a ∧ resolveMapVals E items inner idx = .ok rs ∧
      r = .map rs (getValueSetting idx) := by
  rw [resolveMap.eq_def] at h
  cases w <;> simp at h
  rename_i items a
  split at h
  · rename_i rs hrs
    simp at h
    exact ⟨items, a, rs, rfl, hrs, h.symm⟩
  · exact Except.noConfusion h

theorem resolveRecord_ok (E : HostFns F32 F64) (w r : Value F32 F64 L)
    (fields : List (RecordField F64 L)) (recIdx : Bool)
    (h : resolveRecord E w fields recIdx = .ok r) :
    ∃ items nf, resolveFieldList E items fields = .ok nf ∧
      r = .record nf (getValueSetting recIdx) := by
  rw [resolveRecord.eq_def] at h
  split at h
  · rename_i items hitems
    split at h
    · rename_i nf hnf
      simp at h
      exact ⟨items, nf, hnf, h.symm⟩
    · exact Except.noConfusion h
  · exact Except.noConfusion h

theorem resolveLruSet_ok (E : HostFns F32 F64) (w r : Value F32 F64 L) (limit : L)
    (idx : Bool) (h : resolveLruSet E w limit idx = .ok r) :
    ∃ entries, r = .lruSet entries limit (getValueSetting idx) := by
  rw [resolveLruSet.eq_def] at h
  cases w <;> simp at h
  case map items a =>
    split at h
    · simp at h
      exact ⟨_, h.symm⟩
    · exact Except.noConfusion h
  case lruSet items lim a => exact ⟨_, h.symm⟩

theorem resolveOptional_ok (E : HostFns F32 F64) (w r : Value F32 F64 L)
    (inner : Schema F64 L) (idx : Bool) (h : resolveOptional E w inner idx = .ok r) :
    r = .optional none (getValueSetting idx) ∨
      ∃ u r1, resolve E u inner = .ok r1 ∧ r = .optional (some r1) (getValueSetting idx) := by
  rw [resolveOptional.eq_def] at h
  cases w
  case optional o a =>
    cases o with
    | some u =>
      simp at h
      split at h
      · rename_i r1 hr1
        simp at h
        exact Or.inr ⟨u, r1, hr1, h.symm⟩
      · exact Except.noConfusion h
    | none =>
      simp at h
      exact Or.inl h.symm
  all_goals simp at h
  all_goals {
    split at h
    · rename_i r1 hr1
      simp at h
      exact Or.inr ⟨_, r1, hr1, h.symm⟩
    · exact Except.noConfusion h
  }

/-! ### Main soundness lemma: resolved values validate (union-free schemas) -/

theorem sSize_pos (s : Schema F64 L) : 1 ≤ sSize s := by
  cases s <;> simp [sSize]

theorem fieldsSize_mem (fields : List (RecordField F64 L)) (f : RecordField F64 L)
    (hf : f ∈ fields) : sSize f.schema ≤ fieldsSize fields := by
  induction fields with
  | nil => cases hf
  | cons g rest ih =>
    rw [fieldsSize_cons]
    rcases List.mem_cons.mp hf with hfg | hmem
    · subst hfg
      omega
    · have := ih hmem
      omega

theorem ufFields_mem (fields : List (RecordField F64 L)) (f : RecordField F64 L)
    (hf : f ∈ fields) (h : ufFields fields = true) : unionFree f.schema = true := by
  induction fields with
  | nil => cases hf
  | cons g rest ih =>
    cases g with
    | mk gname gdoc gdef gsch gord gpos gidx =>
      simp only [ufFields, Bool.and_eq_true] at h
      rcases List.mem_cons.mp hf with hfg | hmem
      · subst hfg
        exact h.1
      · exact ih hmem h.2

theorem elems_validate (E : HostFns F32 F64) (inner : Schema F64 L) (idx : Bool)
    (IH : ∀ (v : Value F32 F64 L) (idx2 : Bool) (r : Value F32 F64 L),
      resolveInternal E v inner idx2 = .ok r → validate r inner = true) :
    ∀ (items rs : List (Value F32 F64 L)), resolveElems E items inner idx = .ok rs →
      ∀ x ∈ rs, validate x inner = true := by
  intro items
  induction items with
  | nil =>
    intro rs h
    rw [resolveElems_nil] at h
    simp at h
    subst h
    simp
  | cons x rest ih =>
    intro rs h
    rw [resolveElems_cons] at h
    split at h
    · rename_i v1 hv1
      split at h
      · rename_i vs hvs
        simp at h
        subst h
        intro y hy
        rcases List.mem_cons.mp hy with hy1 | hymem
        · rw [hy1]
          exact IH x idx v1 hv1
        · exact ih vs hvs y hymem
      · exact Except.noConfusion h
    · exact Except.noConfusion h

theorem mapVals_validate (E : HostFns F32 F64) (inner : Schema F64 L) (idx : Bool)
    (IH : ∀ (v : Value F32 F64 L) (idx2 : Bool) (r : Value F32 F64 L),
      resolveInternal E v inner idx2 = .ok r → validate r inner = true) :
    ∀ (entries rs : List (String × Value F32 F64 L)),
      resolveMapVals E entries inner idx = .ok rs →
      ∀ p ∈ rs, validate p.2 inner = true := by
  intro entries
  induction entries with
  | nil =>
    intro rs h
    rw [resolveMapVals_nil] at h
    simp at h
    subst h
    simp
  | cons e rest ih =>
    intro rs h
    rcases e with ⟨k, value⟩
    rw [resolveMapVals_cons] at h
    split at h
    · rename_i v1 hv1
      split at h
      · rename_i vs hvs
        simp at h
        subst h
        intro p hp
        rcases List.mem_cons.mp hp with hp1 | hpmem
        · subst hp1
          exact IH value idx v1 hv1
        · exact ih vs hvs p hpmem
      · exact Except.noConfusion h
    · exact Except.noConfusion h

theorem fieldList_validate (E : HostFns F32 F64) (fields : List (RecordField F64 L))
    (IH : ∀ f ∈ fields, ∀ (v : Value F32 F64 L) (idx2 : Bool) (r : Value F32 F64 L),
      resolveInternal E v f.schema idx2 = .ok r → validate r f.schema = true) :
    ∀ (items : List (String × Value F32 F64 L)) (nf : List (String × Value F32 F64 L)),
      resolveFieldList E items fields = .ok nf → validateFields fields nf = true := by
  induction fields with
  | nil =>
    intro items nf h
    rw [resolveFieldList_nil] at h
    simp at h
    subst h
    simp [validateFields]
  | cons f rest ih =>
    intro items nf h
    rw [resolveFieldList_cons] at h
    split at h
    · rename_i value hval
      split at h
      · rename_i v1 hv1
        split at h
        · rename_i nf2 hnf2
          simp at h
          subst h
          have hv := IH f (List.mem_cons_self f rest) value f.index v1 hv1
          have hr := ih (fun g hg => IH g (List.mem_cons_of_mem f hg))
            (hmRemove items f.name).2 nf2 hnf2
          cases f with
          | mk fname fdoc fdef fsch ford fpos fidx =>
            simp only [RecordField.name, RecordField.schema] at hv ⊢
            simp [validateFields, hv, hr]
        · exact Except.noConfusion h
      · exact Except.noConfusion h
    · exact Except.noConfusion h

theorem internal_validates :
    ∀ (n : Nat) (s : Schema F64 L), sSize s ≤ n → unionFree s = true →
    ∀ (E : HostFns F32 F64) (v : Value F32 F64 L) (idx : Bool) (r : Value F32 F64 L),
      resolveInternal E v s idx = .ok r → validate r s = true := by
  intro n
  induction n with
  | zero =>
    intro s hs
    have := sSize_pos s
    omega
  | succ n ih =>
    intro s hs huf E v idx r h
    rw [resolveInternal_unfold] at h
    generalize unwrapU v s = w at h
    cases s
    case null =>
      rw [resolveDispatch_null] at h
      have hr := resolveNull_ok w r h
      subst hr
      simp [validate]
    case boolean =>
      rw [resolveDispatch_boolean] at h
      rcases resolveBoolean_ok w r idx h with ⟨b, rfl⟩
      simp [validate]
    case int =>
      rw [resolveDispatch_int] at h
      rcases resolveInt_ok w r false h with ⟨m, rfl⟩
      simp [validate]
    case long =>
      rw [resolveDispatch_long] at h
      rcases resolveLong_ok w r false h with ⟨m, rfl⟩
      simp [validate]
    case float =>
      rw [resolveDispatch_float] at h
      rcases resolveFloat_ok E w r false h with ⟨x, rfl⟩
      simp [validate]
    case double =>
      rw [resolveDispatch_double] at h
      rcases resolveDouble_ok E w r false h with ⟨x, rfl⟩
      simp [validate]
    case bytes =>
      rw [resolveDispatch_bytes] at h
      rcases resolveBytes_ok E w r false h with ⟨bs, rfl⟩
      simp [validate]
    case string =>
      rw [resolveDispatch_string] at h
      rcases resolveString_ok E w r idx h with ⟨s0, rfl⟩
      simp [validate]
    case fixed size name =>
      rw [resolveDispatch_fixed] at h
      rcases resolveFixed_ok w r size false h with ⟨b, rfl⟩
      simp [validate]
    case enum name doc symbols =>
      rw [resolveDispatch_enum] at h
      rcases resolveEnum_ok w r symbols idx h with ⟨p, s0, hp, rfl⟩
      have hg := symPos_get symbols s0 p hp
      rw [List.get?_eq_getElem?] at hg
      simp [validate, hg]
    case union branches =>
      simp [unionFree] at huf
    case array inner =>
      rw [resolveDispatch_array] at h
      rcases resolveArray_ok E w r inner idx h with ⟨items, a, rs, hw, hrs, rfl⟩
      have hsub : sSize inner ≤ n := by
        simp only [sSize] at hs
        omega
      have hufi : unionFree inner = true := by simpa [unionFree] using huf
      have hall := elems_validate E inner idx (fun v2 idx2 r2 h2 => ih inner hsub hufi E v2 idx2 r2 h2)
        items rs hrs
      simp [validate]
      intro x hx
      exact hall x hx
    case map inner =>
      rw [resolveDispatch_map] at h
      rcases resolveMap_ok E w r inner idx h with ⟨items, a, rs, hw, hrs, rfl⟩
      have hsub : sSize inner ≤ n := by
        simp only [sSize] at hs
        omega
      have hufi : unionFree inner = true := by simpa [unionFree] using huf
      have hall := mapVals_validate E inner idx (fun v2 idx2 r2 h2 => ih inner hsub hufi E v2 idx2 r2 h2)
        items rs hrs
      simp [validate]
      intro k x hx
      exact hall (k, x) hx
    case record name doc fields lookup =>
      rw [resolveDispatch_record] at h
      rcases resolveRecord_ok E w r fields name.index h with ⟨items, nf, hnf, rfl⟩
      have hIH : ∀ f ∈ fields, ∀ (v2 : Value F32 F64 L) (idx2 : Bool) (r2 : Value F32 F64 L),
          resolveInternal E v2 f.schema idx2 = .ok r2 → validate r2 f.schema = true := by
        intro f hf v2 idx2 r2 h2
        have hsz : sSize (RecordField.schema f) ≤ n := by
          have h1 := fieldsSize_mem fields f hf
          simp only [sSize] at hs
          omega
        have hufv : unionFree (RecordField.schema f) = true :=
          ufFields_mem fields f hf (by simpa [unionFree] using huf)
        exact ih f.schema hsz hufv E v2 idx2 r2 h2
      have := fieldList_validate E fields hIH items nf hnf
      simpa [validate] using this
    case date =>
      rw [resolveDispatch_date] at h
      rcases resolveDatetime_ok E w r idx h with ⟨t, rfl⟩
      simp [validate]
    case set =>
      rw [resolveDispatch_set] at h
      rcases resolveSet_ok w r idx h with ⟨ss, rfl⟩
      simp [validate]
    case lruSet limit =>
      rw [resolveDispatch_lruSet] at h
      rcases resolveLruSet_ok E w r limit idx h with ⟨entries, rfl⟩
      simp [validate]
    case optional inner =>
      rw [resolveDispatch_optional] at h
      rcases resolveOptional_ok E w r inner idx h with hnone | ⟨u, r1, hr1, rfl⟩
      · subst hnone
        simp [validate]
      · rw [resolve_eq] at hr1
        have hsub : sSize inner ≤ n := by
          simp only [sSize] at hs
          omega
        have hufi : unionFree inner = true := by simpa [unionFree] using huf
        have := ih inner hsub hufi E u false r1 hr1
        simpa [validate] using this

/-! ### Annotation invariant: every resolution output satisfies it -/

theorem annOk_gvs (idx : Bool) : annOk (getValueSetting idx) = true := by
  cases idx <;> rfl

theorem gvs_false : getValueSetting false = none := rfl

theorem branches_mem_size (branches : List (Schema F64 L)) (b : Schema F64 L)
    (hb : b ∈ branches) : sSize b ≤ sListSize branches := by
  induction branches with
  | nil => cases hb
  | cons c rest ih =>
    rw [sListSize]
    rcases List.mem_cons.mp hb with hbc | hmem
    · subst hbc
      omega
    · have := ih hmem
      omega

theorem resolveUnionGo_ok (E : HostFns F32 F64) (w : Value F32 F64 L)
    (branches : List (Schema F64 L)) (idx : Bool) (r : Value F32 F64 L)
    (h : resolveUnionGo E w branches idx = .ok r) :
    ∃ b, b ∈ branches ∧ resolveInternal E w b idx = .ok r := by
  induction branches with
  | nil =>
    rw [resolveUnionGo_nil] at h
    exact Except.noConfusion h
  | cons b rest ih =>
    rw [resolveUnionGo_cons] at h
    split at h
    · exact ⟨b, List.mem_cons_self b rest, h⟩
    · rcases ih h with ⟨b2, hb2, h2⟩
      exact ⟨b2, List.mem_cons_of_mem b hb2, h2⟩

theorem resolveUnion_ok (E : HostFns F32 F64) (v : Value F32 F64 L)
    (branches : List (Schema F64 L)) (idx : Bool) (r : Value F32 F64 L)
    (h : resolveUnion E v branches idx = .ok r) :
    ∃ w b, b ∈ branches ∧ resolveInternal E w b idx = .ok r := by
  rw [resolveUnion.eq_def] at h
  cases v <;>
    first
    | (rcases resolveUnionGo_ok _ _ _ _ _ h with ⟨b, hb, h2⟩; exact ⟨_, b, hb, h2⟩)

theorem elems_ann (E : HostFns F32 F64) (inner : Schema F64 L) (idx : Bool)
    (IH : ∀ (v : Value F32 F64 L) (idx2 : Bool) (r : Value F32 F64 L),
      resolveInternal E v inner idx2 = .ok r → annInvariant r = true) :
    ∀ (items rs : List (Value F32 F64 L)), resolveElems E items inner idx = .ok rs →
      annList rs = true := by
  intro items
  induction items with
  | nil =>
    intro rs h
    rw [resolveElems_nil] at h
    simp at h
    subst h
    rfl
  | cons x rest ih =>
    intro rs h
    rw [resolveElems_cons] at h
    split at h
    · rename_i v1 hv1
      split at h
      · rename_i vs hvs
        simp at h
        subst h
        simp [annList, IH x idx v1 hv1, ih vs hvs]
      · exact Except.noConfusion h
    · exact Except.noConfusion h

theorem mapVals_ann (E : HostFns F32 F64) (inner : Schema F64 L) (idx : Bool)
    (IH : ∀ (v : Value F32 F64 L) (idx2 : Bool) (r : Value F32 F64 L),
      resolveInternal E v inner idx2 = .ok r → annInvariant r = true) :
    ∀ (entries rs : List (String × Value F32 F64 L)),
      resolveMapVals E entries inner idx = .ok rs → annKV rs = true := by
  intro entries
  induction entries with
  | nil =>
    intro rs h
    rw [resolveMapVals_nil] at h
    simp at h
    subst h
    rfl
  | cons e rest ih =>
    intro rs h
    rcases e with ⟨k, value⟩
    rw [resolveMapVals_cons] at h
    split at h
    · rename_i v1 hv1
      split at h
      · rename_i vs hvs
        simp at h
        subst h
        simp [annKV, IH value idx v1 hv1, ih vs hvs]
      · exact Except.noConfusion h
    · exact Except.noConfusion h

theorem fieldList_ann (E : HostFns F32 F64) (fields : List (RecordField F64 L))
    (IH : ∀ f ∈ fields, ∀ (v : Value F32 F64 L) (idx2 : Bool) (r : Value F32 F64 L),
      resolveInternal E v f.schema idx2 = .ok r → annInvariant r = true) :
    ∀ (items nf : List (String × Value F32 F64 L)),
      resolveFieldList E items fields = .ok nf → annKV nf = true := by
  induction fields with
  | nil =>
    intro items nf h
    rw [resolveFieldList_nil] at h
    simp at h
    subst h
    rfl
  | cons f rest ih =>
    intro items nf h
    rw [resolveFieldList_cons] at h
    split at h
    · rename_i value hval
      split at h
      · rename_i v1 hv1
        split at h
        · rename_i nf2 hnf2
          simp at h
          subst h
          have hv := IH f (List.mem_cons_self f rest) value f.index v1 hv1
          have hr := ih (fun g hg => IH g (List.mem_cons_of_mem f hg))
            (hmRemove items f.name).2 nf2 hnf2
          simp [annKV, hv, hr]
        · exact Except.noConfusion h
      · exact Except.noConfusion h
    · exact Except.noConfusion h

theorem internal_ann :
    ∀ (n : Nat) (s : Schema F64 L), sSize s ≤ n →
    ∀ (E : HostFns F32 F64) (v : Value F32 F64 L) (idx : Bool) (r : Value F32 F64 L),
      resolveInternal E v s idx = .ok r → annInvariant r = true := by
  intro n
  induction n with
  | zero =>
    intro s hs
    have := sSize_pos s
    omega
  | succ n ih =>
    intro s hs E v idx r h
    rw [resolveInternal_unfold] at h
    generalize unwrapU v s = w at h
    cases s
    case null =>
      rw [resolveDispatch_null] at h
      have hr := resolveNull_ok w r h
      subst hr
      rfl
    case boolean =>
      rw [resolveDispatch_boolean] at h
      rcases resolveBoolean_ok w r idx h with ⟨b, rfl⟩
      simp [annInvariant, annOk_gvs]
    case int =>
      rw [resolveDispatch_int] at h
      rcases resolveInt_ok w r false h with ⟨m, rfl⟩
      simp [annInvariant, gvs_false]
    case long =>
      rw [resolveDispatch_long] at h
      rcases resolveLong_ok w r false h with ⟨m, rfl⟩
      simp [annInvariant, gvs_false]
    case float =>
      rw [resolveDispatch_float] at h
      rcases resolveFloat_ok E w r false h with ⟨x, rfl⟩
      simp [annInvariant, gvs_false]
    case double =>
      rw [resolveDispatch_double] at h
      rcases resolveDouble_ok E w r false h with ⟨x, rfl⟩
      simp [annInvariant, gvs_false]
    case bytes =>
      rw [resolveDispatch_bytes] at h
      rcases resolveBytes_ok E w r false h with ⟨bs, rfl⟩
      simp [annInvariant, gvs_false]
    case string =>
      rw [resolveDispatch_string] at h
      rcases resolveString_ok E w r idx h with ⟨s0, rfl⟩
      simp [annInvariant, annOk_gvs]
    case fixed size name =>
      rw [resolveDispatch_fixed] at h
      rcases resolveFixed_ok w r size false h with ⟨b, rfl⟩
      simp [annInvariant, gvs_false]
    case enum name doc symbols =>
      rw [resolveDispatch_enum] at h
      rcases resolveEnum_ok w r symbols idx h with ⟨p, s0, hp, rfl⟩
      simp [annInvariant, annOk_gvs]
    case union branches =>
      rw [resolveDispatch_union] at h
      rcases resolveUnion_ok E w branches false r h with ⟨w2, b, hb, h2⟩
      have hsz : sSize b ≤ n := by
        have := branches_mem_size branches b hb
        simp only [sSize] at hs
        omega
      exact ih b hsz E w2 false r h2
    case array inner =>
      rw [resolveDispatch_array] at h
      rcases resolveArray_ok E w r inner idx h with ⟨items, a, rs, hw, hrs, rfl⟩
      have hsub : sSize inner ≤ n := by
        simp only [sSize] at hs
        omega
      have hall := elems_ann E inner idx (fun v2 idx2 r2 h2 => ih inner hsub E v2 idx2 r2 h2)
        items rs hrs
      simp [annInvariant, annOk_gvs, hall]
    case map inner =>
      rw [resolveDispatch_map] at h
      rcases resolveMap_ok E w r inner idx h with ⟨items, a, rs, hw, hrs, rfl⟩
      have hsub : sSize inner ≤ n := by
        simp only [sSize] at hs
        omega
      have hall := mapVals_ann E inner idx (fun v2 idx2 r2 h2 => ih inner hsub E v2 idx2 r2 h2)
        items rs hrs
      simp [annInvariant, annOk_gvs, hall]
    case record name doc fields lookup =>
      rw [resolveDispatch_record] at h
      rcases resolveRecord_ok E w r fields name.index h with ⟨items, nf, hnf, rfl⟩
      have hIH : ∀ f ∈ fields, ∀ (v2 : Value F32 F64 L) (idx2 : Bool) (r2 : Value F32 F64 L),
          resolveInternal E v2 f.schema idx2 = .ok r2 → annInvariant r2 = true := by
        intro f hf v2 idx2 r2 h2
        have hsz : sSize (RecordField.schema f) ≤ n := by
          have h1 := fieldsSize_mem fields f hf
          simp only [sSize] at hs
          omega
        exact ih f.schema hsz E v2 idx2 r2 h2
      have hall := fieldList_ann E fields hIH items nf hnf
      simp [annInvariant, annOk_gvs, hall]
    case date =>
      rw [resolveDispatch_date] at h
      rcases resolveDatetime_ok E w r idx h with ⟨t, rfl⟩
      simp [annInvariant, annOk_gvs]
    case set =>
      rw [resolveDispatch_set] at h
      rcases resolveSet_ok w r idx h with ⟨ss, rfl⟩
      simp [annInvariant, annOk_gvs]
    case lruSet limit =>
      rw [resolveDispatch_lruSet] at h
      rcases resolveLruSet_ok E w r limit idx h with ⟨entries, rfl⟩
      simp [annInvariant, annOk_gvs]
    case optional inner =>
      rw [resolveDispatch_optional] at h
      rcases resolveOptional_ok E w r inner idx h with hnone | ⟨u, r1, hr1, rfl⟩
      · subst hnone
        simp [annInvariant, annOk_gvs]
      · rw [resolve_eq] at hr1
        have hsub : sSize inner ≤ n := by
          simp only [sSize] at hs
          omega
        have := ih inner hsub E u false r1 hr1
        simp [annInvariant, annOk_gvs, this]

/-! ### Idempotence of resolution (union-free, nodup-record schemas) -/

theorem fieldList_names (E : HostFns F32 F64) (fields : List (RecordField F64 L)) :
    ∀ (items nf : List (String × Value F32 F64 L)),
      resolveFieldList E items fields = .ok nf →
      nf.map Prod.fst = fields.map RecordField.name := by
  induction fields with
  | nil =>
    intro items nf h
    rw [resolveFieldList_nil] at h
    simp at h
    subst h
    simp
  | cons f rest ih =>
    intro items nf h
    rw [resolveFieldList_cons] at h
    split at h
    · rename_i value hval
      split at h
      · rename_i v1 hv1
        split at h
        · rename_i nf2 hnf2
          simp at h
          subst h
          simp [ih (hmRemove items f.name).2 nf2 hnf2]
        · exact Except.noConfusion h
      · exact Except.noConfusion h
    · exact Except.noConfusion h

theorem nodupNames_head (x : String) (rest : List String)
    (h : nodupNames (x :: rest) = true) : x ∉ rest ∧ nodupNames rest = true := by
  simp only [nodupNames, Bool.and_eq_true, Bool.not_eq_true'] at h
  refine ⟨?_, h.2⟩
  intro hm
  have hx : rest.contains x = true := List.elem_iff.mpr hm
  rw [h.1] at hx
  cases hx

theorem collectHM_go (l : List (String × Value F32 F64 L)) :
    ∀ acc : List (String × Value F32 F64 L),
      (∀ p ∈ acc, ∀ q ∈ l, (p.1 == q.1) = false) →
      nodupNames (l.map Prod.fst) = true →
      l.foldl (fun acc p => acc.filter (fun q => !(q.1 == p.1)) ++ [p]) acc = acc ++ l := by
  induction l with
  | nil =>
    intro acc hdis hnd
    simp
  | cons p rest ih =>
    intro acc hdis hnd
    rcases nodupNames_head _ _ (by simpa using hnd) with ⟨hnotin, hnd2⟩
    simp only [List.foldl_cons]
    have hfil : acc.filter (fun q => !(q.1 == p.1)) = acc := by
      apply List.filter_eq_self.mpr
      intro a ha
      simp [hdis a ha p (List.mem_cons_self p rest)]
    rw [hfil]
    rw [ih (acc ++ [p]) ?_ hnd2]
    · simp
    · intro a ha q hq
      rcases List.mem_append.mp ha with hacc | hp
      · exact hdis a hacc q (List.mem_cons_of_mem p hq)
      · simp at hp
        subst hp
        apply beq_eq_false_iff_ne.mpr
        intro heq
        exact hnotin (heq ▸ List.mem_map.mpr ⟨q, hq, rfl⟩)

theorem collectHM_nodup (l : List (String × Value F32 F64 L))
    (hnd : nodupNames (l.map Prod.fst) = true) : collectHM l = l := by
  have := collectHM_go l [] (by intro p hp; cases hp) hnd
  simpa [collectHM] using this

theorem rnFields_mem (fields : List (RecordField F64 L)) (f : RecordField F64 L)
    (hf : f ∈ fields) (h : rnFields fields = true) : recNodup f.schema = true := by
  induction fields with
  | nil => cases hf
  | cons g rest ih =>
    cases g with
    | mk gname gdoc gdef gsch gord gpos gidx =>
      simp only [rnFields, Bool.and_eq_true] at h
      rcases List.mem_cons.mp hf with hfg | hmem
      · subst hfg
        exact h.1
      · exact ih hmem h.2

theorem hmRemove_head (k : String) (v1 : Value F32 F64 L)
    (rest : List (String × Value F32 F64 L))
    (hk : ∀ q ∈ rest, (q.1 == k) = false) :
    hmRemove ((k, v1) :: rest) k = (some v1, rest) := by
  unfold hmRemove
  rw [List.find?_cons_of_pos _ (by simp)]
  have hfil : ((k, v1) :: rest).filter (fun q => !(q.1 == k)) = rest := by
    rw [List.filter_cons]
    simp only [beq_self_eq_true, Bool.not_true, Bool.false_eq_true, if_false]
    exact List.filter_eq_self.mpr (fun q hq => by simp [hk q hq])
  rw [hfil]

theorem elems_idem (E : HostFns F32 F64) (inner : Schema F64 L) (idx : Bool)
    (IH : ∀ (v : Value F32 F64 L) (idx2 : Bool) (r : Value F32 F64 L),
      resolveInternal E v inner idx2 = .ok r → resolveInternal E r inner idx2 = .ok r) :
    ∀ (items rs : List (Value F32 F64 L)), resolveElems E items inner idx = .ok rs →
      resolveElems E rs inner idx = .ok rs := by
  intro items
  induction items with
  | nil =>
    intro rs h
    rw [resolveElems_nil] at h
    simp at h
    subst h
    rw [resolveElems_nil]
  | cons x rest ih =>
    intro rs h
    rw [resolveElems_cons] at h
    split at h
    · rename_i v1 hv1
      split at h
      · rename_i vs hvs
        simp at h
        subst h
        rw [resolveElems_cons]
        rw [IH x idx v1 hv1, ih vs hvs]
      · exact Except.noConfusion h
    · exact Except.noConfusion h

theorem mapVals_idem (E : HostFns F32 F64) (inner : Schema F64 L) (idx : Bool)
    (IH : ∀ (v : Value F32 F64 L) (idx2 : Bool) (r : Value F32 F64 L),
      resolveInternal E v inner idx2 = .ok r → resolveInternal E r inner idx2 = .ok r) :
    ∀ (entries rs : List (String × Value F32 F64 L)),
      resolveMapVals E entries inner idx = .ok rs →
      resolveMapVals E rs inner idx = .ok rs := by
  intro entries
  induction entries with
  | nil =>
    intro rs h
    rw [resolveMapVals_nil] at h
    simp at h
    subst h
    rw [resolveMapVals_nil]
  | cons e rest ih =>
    intro rs h
    rcases e with ⟨k, value⟩
    rw [resolveMapVals_cons] at h
    split at h
    · rename_i v1 hv1
      split at h
      · rename_i vs hvs
        simp at h
        subst h
        rw [resolveMapVals_cons]
        rw [IH value idx v1 hv1, ih vs hvs]
      · exact Except.noConfusion h
    · exact Except.noConfusion h

theorem fieldList_idem (E : HostFns F32 F64) (fields : List (RecordField F64 L))
    (IH : ∀ f ∈ fields, ∀ (v : Value F32 F64 L) (idx2 : Bool) (r : Value F32 F64 L),
      resolveInternal E v f.schema idx2 = .ok r → resolveInternal E r f.schema idx2 = .ok r)
    (hnd : nodupNames (fields.map RecordField.name) = true) :
    ∀ (items nf : List (String × Value F32 F64 L)),
      resolveFieldList E items fields = .ok nf → resolveFieldList E nf fields = .ok nf := by
  induction fields with
  | nil =>
    intro items nf h
    rw [resolveFieldList_nil] at h
    simp at h
    subst h
    rw [resolveFieldList_nil]
  | cons f rest ih =>
    intro items nf h
    rcases nodupNames_head _ _ (by simpa using hnd) with ⟨hnotin, hnd2⟩
    rw [resolveFieldList_cons] at h
    split at h
    · rename_i value hval
      split at h
      · rename_i v1 hv1
        split at h
        · rename_i nf2 hnf2
          simp at h
          subst h
          have hnames : nf2.map Prod.fst = rest.map RecordField.name :=
            fieldList_names E rest (hmRemove items f.name).2 nf2 hnf2
          have hkeys : ∀ q ∈ nf2, (q.1 == f.name) = false := by
            intro q hq
            apply beq_eq_false_iff_ne.mpr
            intro heq
            apply hnotin
            rw [← hnames]
            exact heq ▸ List.mem_map.mpr ⟨q, hq, rfl⟩
          rw [resolveFieldList_cons]
          rw [hmRemove_head f.name v1 nf2 hkeys]
          simp only []
          rw [IH f (List.mem_cons_self f rest) v1 f.index v1
            (IH f (List.mem_cons_self f rest) value f.index v1 hv1)]
          rw [ih (fun g hg => IH g (List.mem_cons_of_mem f hg)) hnd2 nf2 nf2
            (ih (fun g hg => IH g (List.mem_cons_of_mem f hg)) hnd2
              (hmRemove items f.name).2 nf2 hnf2)]
        · exact Except.noConfusion h
      · exact Except.noConfusion h
    · exact Except.noConfusion h

theorem internal_idem :
    ∀ (n : Nat) (s : Schema F64 L), sSize s ≤ n → unionFree s = true → recNodup s = true →
    ∀ (E : HostFns F32 F64) (v : Value F32 F64 L) (idx : Bool) (r : Value F32 F64 L),
      resolveInternal E v s idx = .ok r → resolveInternal E r s idx = .ok r := by
  intro n
  induction n with
  | zero =>
    intro s hs
    have := sSize_pos s
    omega
  | succ n ih =>
    intro s hs huf hnd E v idx r h
    rw [resolveInternal_unfold] at h
    generalize unwrapU v s = w at h
    cases s
    case null =>
      rw [resolveDispatch_null] at h
      have hr := resolveNull_ok w r h
      subst hr
      rw [resolveInternal_unfold, unwrapU_null, resolveDispatch_null]
      rfl
    case boolean =>
      rw [resolveDispatch_boolean] at h
      rcases resolveBoolean_ok w r idx h with ⟨b, rfl⟩
      rw [resolveInternal_unfold, unwrapU_boolean, resolveDispatch_boolean]
      rfl
    case int =>
      rw [resolveDispatch_int] at h
      rcases resolveInt_ok w r false h with ⟨m, rfl⟩
      rw [resolveInternal_unfold, unwrapU_int, resolveDispatch_int]
      rfl
    case long =>
      rw [resolveDispatch_long] at h
      rcases resolveLong_ok w r false h with ⟨m, rfl⟩
      rw [resolveInternal_unfold, unwrapU_long, resolveDispatch_long]
      rfl
    case float =>
      rw [resolveDispatch_float] at h
      rcases resolveFloat_ok E w r false h with ⟨x, rfl⟩
      rw [resolveInternal_unfold, unwrapU_float, resolveDispatch_float]
      rfl
    case double =>
      rw [resolveDispatch_double] at h
      rcases resolveDouble_ok E w r false h with ⟨x, rfl⟩
      rw [resolveInternal_unfold, unwrapU_double, resolveDispatch_double]
      rfl
    case bytes =>
      rw [resolveDispatch_bytes] at h
      rcases resolveBytes_ok E w r false h with ⟨bs, rfl⟩
      rw [resolveInternal_unfold, unwrapU_bytes, resolveDispatch_bytes, resolveBytes.eq_def]
    case string =>
      rw [resolveDispatch_string] at h
      rcases resolveString_ok E w r idx h with ⟨s0, rfl⟩
      rw [resolveInternal_unfold, unwrapU_string, resolveDispatch_string]
      rfl
    case fixed size name =>
      rw [resolveDispatch_fixed] at h
      rcases resolveFixed_ok w r size false h with ⟨b, rfl⟩
      rw [resolveInternal_unfold, unwrapU_fixed, resolveDispatch_fixed]
      simp [resolveFixed]
    case enum name doc symbols =>
      rw [resolveDispatch_enum] at h
      rcases resolveEnum_ok w r symbols idx h with ⟨p, s0, hp, rfl⟩
      rw [resolveInternal_unfold, unwrapU_enum, resolveDispatch_enum]
      have hlt : (Int.ofNat p) < (symbols.length : Int) :=
        Int.ofNat_lt.mpr (symPos_lt symbols s0 p hp)
      simp only [resolveEnum]
      rw [if_pos ⟨Int.ofNat_nonneg p, hlt⟩, hp]
    case union branches =>
      simp [unionFree] at huf
    case array inner =>
      rw [resolveDispatch_array] at h
      rcases resolveArray_ok E w r inner idx h with ⟨items, a, rs, hw, hrs, rfl⟩
      have hsub : sSize inner ≤ n := by
        simp only [sSize] at hs
        omega
      have hufi : unionFree inner = true := by simpa [unionFree] using huf
      have hndi : recNodup inner = true := by simpa [recNodup] using hnd
      have h2 := elems_idem E inner idx
        (fun v2 idx2 r2 h2 => ih inner hsub hufi hndi E v2 idx2 r2 h2) items rs hrs
      rw [resolveInternal_unfold, unwrapU_array, resolveDispatch_array, resolveArray.eq_def]
      simp [h2]
    case map inner =>
      rw [resolveDispatch_map] at h
      rcases resolveMap_ok E w r inner idx h with ⟨items, a, rs, hw, hrs, rfl⟩
      have hsub : sSize inner ≤ n := by
        simp only [sSize] at hs
        omega
      have hufi : unionFree inner = true := by simpa [unionFree] using huf
      have hndi : recNodup inner = true := by simpa [recNodup] using hnd
      have h2 := mapVals_idem E inner idx
        (fun v2 idx2 r2 h2 => ih inner hsub hufi hndi E v2 idx2 r2 h2) items rs hrs
      rw [resolveInternal_unfold, unwrapU_map, resolveDispatch_map, resolveMap.eq_def]
      simp [h2]
    case record name doc fields lookup =>
      rw [resolveDispatch_record] at h
      rcases resolveRecord_ok E w r fields name.index h with ⟨items, nf, hnf, rfl⟩
      have hIH : ∀ f ∈ fields, ∀ (v2 : Value F32 F64 L) (idx2 : Bool) (r2 : Value F32 F64 L),
          resolveInternal E v2 f.schema idx2 = .ok r2 →
          resolveInternal E r2 f.schema idx2 = .ok r2 := by
        intro f hf v2 idx2 r2 h2
        have hsz : sSize (RecordField.schema f) ≤ n := by
          have h1 := fieldsSize_mem fields f hf
          simp only [sSize] at hs
          omega
        have hufv : unionFree (RecordField.schema f) = true :=
          ufFields_mem fields f hf (by simpa [unionFree] using huf)
        have hndv : recNodup (RecordField.schema f) = true := by
          simp only [recNodup, Bool.and_eq_true] at hnd
          exact rnFields_mem fields f hf hnd.2
        exact ih f.schema hsz hufv hndv E v2 idx2 r2 h2
      have hnames := fieldList_names E fields items nf hnf
      have hndf : nodupNames (fields.map RecordField.name) = true := by
        simp only [recNodup, Bool.and_eq_true] at hnd
        exact hnd.1
      have h2 := fieldList_idem E fields hIH hndf items nf hnf
      rw [resolveInternal_unfold, unwrapU_record, resolveDispatch_record, resolveRecord.eq_def]
      have hcoll : collectHM nf = nf := collectHM_nodup nf (by rw [hnames]; exact hndf)
      simp [recordItems, hcoll, h2]
    case date =>
      rw [resolveDispatch_date] at h
      rcases resolveDatetime_ok E w r idx h with ⟨t, rfl⟩
      rw [resolveInternal_unfold, unwrapU_date, resolveDispatch_date]
      rfl
    case set =>
      rw [resolveDispatch_set] at h
      rcases resolveSet_ok w r idx h with ⟨ss, rfl⟩
      rw [resolveInternal_unfold, unwrapU_set, resolveDispatch_set]
      rfl
    case lruSet limit =>
      rw [resolveDispatch_lruSet] at h
      rcases resolveLruSet_ok E w r limit idx h with ⟨entries, rfl⟩
      rw [resolveInternal_unfold, unwrapU_lruSet, resolveDispatch_lruSet, resolveLruSet.eq_def]
    case optional inner =>
      rw [resolveDispatch_optional] at h
      have hsub : sSize inner ≤ n := by
        simp only [sSize] at hs
        omega
      have hufi : unionFree inner = true := by simpa [unionFree] using huf
      have hndi : recNodup inner = true := by simpa [recNodup] using hnd
      rcases resolveOptional_ok E w r inner idx h with hnone | ⟨u, r1, hr1, rfl⟩
      · subst hnone
        rw [resolveInternal_unfold, unwrapU_optional, resolveDispatch_optional,
          resolveOptional.eq_def]
      · rw [resolve_eq] at hr1
        have h2 := ih inner hsub hufi hndi E u false r1 hr1
        rw [resolveInternal_unfold, unwrapU_optional, resolveDispatch_optional,
          resolveOptional.eq_def]
        rw [← resolve_eq] at h2
        simp [h2]

/-! ### Resolve-level corollaries -/

theorem resolve_validates (E : HostFns F32 F64) (v : Value F32 F64 L) (s : Schema F64 L)
    (r : Value F32 F64 L) (huf : unionFree s = true) (h : resolve E v s = .ok r) :
    validate r s = true := by
  rw [resolve_eq] at h
  exact internal_validates (sSize s) s (Nat.le_refl _) huf E v false r h

theorem resolve_idem (E : HostFns F32 F64) (v : Value F32 F64 L) (s : Schema F64 L)
    (r : Value F32 F64 L) (huf : unionFree s = true) (hnd : recNodup s = true)
    (h : resolve E v s = .ok r) : resolve E r s = .ok r := by
  rw [resolve_eq] at h ⊢
  exact internal_idem (sSize s) s (Nat.le_refl _) huf hnd E v false r h

theorem resolve_ann (E : HostFns F32 F64) (v : Value F32 F64 L) (s : Schema F64 L)
    (r : Value F32 F64 L) (h : resolve E v s = .ok r) : annInvariant r = true := by
  rw [resolve_eq] at h
  exact internal_ann (sSize s) s (Nat.le_refl _) E v false r h

theorem symPos_first (symbols : List String) (s : String) (p : Nat)
    (h : symPos symbols s = some p) : ∀ j, j < p → symbols.get? j ≠ some s := by
  induction symbols generalizing p with
  | nil => simp [symPos] at h
  | cons x rest ih =>
    rw [symPos] at h
    split at h
    · cases h
      intro j hj
      omega
    · rename_i hx
      rcases Option.map_eq_some'.mp h with ⟨q, hq, hqp⟩
      subst hqp
      intro j hj
      cases j with
      | zero =>
        simp
        intro hxs
        simp [hxs] at hx
      | succ j => simpa using ih q hq j (by omega)

theorem symPos_mem (symbols : List String) (s : String) :
    (symPos symbols s).isSome = true ↔ s ∈ symbols := by
  induction symbols with
  | nil => simp [symPos]
  | cons x rest ih =>
    rw [symPos]
    split
    · rename_i hx
      simp at hx
      simp [hx]
    · rename_i hx
      simp at hx
      cases hsp : symPos rest s with
      | none =>
        simp [hsp] at ih
        simp [ih, hx]
        exact fun hs => hx hs.symm
      | some p =>
        simp [hsp] at ih
        simp [ih, hx]

theorem resolveRecord_step (E : HostFns F32 F64) (v : Value F32 F64 L)
    (fields : List (RecordField F64 L)) (idx : Bool) :
    resolveRecord E v fields idx =
      (match recordItems v with
       | .ok items =>
         match resolveFieldList E items fields with
         | .ok nf => .ok (.record nf (getValueSetting idx))
         | .error e => .error e
       | .error e => .error e) := by
  rw [resolveRecord.eq_def]

theorem tryU8List_mem_error (E : HostFns F32 F64) (items : List (Value F32 F64 L))
    (x : Value F32 F64 L) (e : String) (hx : x ∈ items) (he : tryU8 E x = .error e) :
    ∃ e2, tryU8List E items = .error e2 := by
  induction items with
  | nil => simp at hx
  | cons y rest ih =>
    rw [tryU8List_cons]
    rcases List.mem_cons.mp hx with h | h
    · subst h
      rw [he]
      exact ⟨e, rfl⟩
    · cases hy : tryU8 E y with
      | error a =>
        exact ⟨a, rfl⟩
      | ok b =>
        rcases ih h with ⟨e2, he2⟩
        rw [he2]
        exact ⟨e2, rfl⟩

/-! ### Claim theorems -/

/-- C1 (counterexample): the claim as stated is false when the target schema
is a Union: `resolve(Int 42, Union [Int])` succeeds with the bare `Int 42`
(resolution against a union never re-wraps the branch value in
`Value::Union`), yet `validate(Int 42, Union [Int])` is false (the validator
only accepts a `Value::Union` against a union schema). -/
theorem claim_C1_cex :
    resolve (L := Unit) unitHost (Value.int 42 none) (Schema.union [Schema.int])
        = .ok (.int 42 none) ∧
    validate (Value.int 42 none : Value Unit Unit Unit) (Schema.union [Schema.int]) = false := by
  constructor
  · simp only [resolve_eq, resolveInternal_unfold, resolveDispatch_union, resolveDispatch_int,
      unwrapU_int, resolveUnion_eq, findSchema, findSchemaFrom, kindOfValue, kindOfSchema,
      beq_self_eq_true, resolveInt, getValueSetting]
    simp [resolveInternal_unfold, resolveDispatch_int, unwrapU_int, resolveInt, getValueSetting]
  · rfl

/-- C1 (amended): for every Value `v` and every schema `s` containing no
Union node, if `resolve(v, s)` returns `Ok r` then `validate(r, s)` is true.
(The claim's "including when s is a Union schema" part is refuted by
`claim_C1_cex`.) -/
theorem claim_C1 (E : HostFns F32 F64) (v : Value F32 F64 L) (s : Schema F64 L)
    (r : Value F32 F64 L) (huf : unionFree s = true) (h : resolve E v s = .ok r) :
    validate r s = true :=
  resolve_validates E v s r huf h

/-- C1 (witness): the amended theorem applied at `resolve(Int 5, Long)`. -/
theorem claim_C1_witness :
    validate (Value.long 5 none : Value Unit Unit Unit) Schema.long = true :=
  claim_C1 unitHost (Value.int 5 none) Schema.long (Value.long 5 none) rfl
    (by
      simp only [resolve_eq, resolveInternal_unfold, unwrapU_int, resolveDispatch_long]
      rfl)

/-- C2 (counterexample): against the Union schema `Union [Int]`, resolving
`Int 42` yields `Ok (Int 42)` and re-resolving succeeds unchanged, but the
result does NOT validate against the schema — the validate clause of the
claim fails. -/
theorem claim_C2_cex :
    resolve (L := Unit) unitHost (Value.int 42 none) (Schema.union [Schema.int])
        = .ok (.int 42 none) ∧
    resolve (L := Unit) unitHost (Value.int 42 none) (Schema.union [Schema.int])
        = .ok (.int 42 none) ∧
    validate (Value.int 42 none : Value Unit Unit Unit) (Schema.union [Schema.int]) = false := by
  refine ⟨?_, ?_, rfl⟩ <;>
    · simp only [resolve_eq, resolveInternal_unfold, resolveDispatch_union, resolveDispatch_int,
        unwrapU_int, resolveUnion_eq, findSchema, findSchemaFrom, kindOfValue, kindOfSchema,
        beq_self_eq_true, resolveInt, getValueSetting]
      simp [resolveInternal_unfold, resolveDispatch_int, unwrapU_int, resolveInt, getValueSetting]

/-- C2 (amended): for every Value `v` and every schema `s` that contains no
Union node and whose record nodes all declare pairwise-distinct field names,
if `resolve(v, s) = Ok r` then re-resolving `r` against `s` succeeds with
exactly `r` (annotation stamping included, since the flags are recomputed
from the same schema), and `r` validates true against `s`. -/
theorem claim_C2 (E : HostFns F32 F64) (v : Value F32 F64 L) (s : Schema F64 L)
    (r : Value F32 F64 L) (huf : unionFree s = true) (hnd : recNodup s = true)
    (h : resolve E v s = .ok r) :
    resolve E r s = .ok r ∧ validate r s = true :=
  ⟨resolve_idem E v s r huf hnd h, resolve_validates E v s r huf h⟩

/-- C2 (witness): the amended theorem applied at `resolve(Int 5, Long)`. -/
theorem claim_C2_witness :
    resolve (L := Unit) unitHost (Value.long 5 none) Schema.long = .ok (.long 5 none) ∧
    validate (Value.long 5 none : Value Unit Unit Unit) Schema.long = true :=
  claim_C2 unitHost (Value.int 5 none) Schema.long (Value.long 5 none) rfl rfl
    (by
      simp only [resolve_eq, resolveInternal_unfold, unwrapU_int, resolveDispatch_long]
      rfl)

/-- C9: every successful resolution satisfies the deep annotation invariant:
`Int`, `Long`, `Float`, `Double`, `Bytes`, `Fixed` and `Union` nodes of the
result always carry an absent annotation regardless of the caller's `index`
flag (the dispatch hard-codes `false` for those cases), and any annotation
present anywhere in the result is `ValueSetting {index: true}` (the only
value `get_value_setting` produces from a true flag). -/
theorem claim_C9 (E : HostFns F32 F64) (v : Value F32 F64 L) (s : Schema F64 L)
    (idx : Bool) (r : Value F32 F64 L) :
    (resolveInternal E v s idx = .ok r → annInvariant r = true) ∧
    (resolve E v s = .ok r → annInvariant r = true) :=
  ⟨fun h => internal_ann (sSize s) s (Nat.le_refl _) E v idx r h,
   fun h => resolve_ann E v s r h⟩

/-- C9 (witness): the invariant holds for the result of resolving
`Int 5` against `Long` (with the caller flag set to `true`). -/
theorem claim_C9_witness :
    annInvariant (Value.long 5 none : Value Unit Unit Unit) = true :=
  (claim_C9 unitHost (Value.int 5 none) Schema.long true (Value.long 5 none)).1
    (by
      rw [resolveInternal_unfold, unwrapU_int, resolveDispatch_long]
      rfl)

/-- C10: `Record::put` with a field name absent from the schema's
name-to-position lookup is a silent no-op: it returns without error and the
builder (in particular its whole `fields` sequence) is unchanged. -/
theorem claim_C10 (r : RecordBuilder F32 F64 L) (field : String)
    (value : Value F32 F64 L) (h : lookupPos r.schemaLookup field = none) :
    r.put field value = r := by
  unfold RecordBuilder.put
  rw [h]

/-- C10 (witness): `put` of an unknown field on a concrete builder. -/
theorem claim_C10_witness :
    (RecordBuilder.mk [("a", (Value.null : Value Unit Unit Unit))] [("a", 0)]).put "zzz"
        (Value.int 1 none)
      = RecordBuilder.mk [("a", Value.null)] [("a", 0)] :=
  claim_C10 (RecordBuilder.mk [("a", Value.null)] [("a", 0)]) "zzz" (Value.int 1 none) rfl

/-- C3: a `Union` source value against a non-Union target schema is first
unwrapped to its inner value and then dispatched on the target schema case;
against a Union target schema it instead goes to union branch matching: the
first branch in declared order whose kind accepts the decomposed value is
resolved against (with index flag `false`), and resolution fails when no
branch matches. -/
theorem claim_C3 (E : HostFns F32 F64) (b : Value F32 F64 L) (a : Option ValueSetting)
    (s : Schema F64 L) (idx : Bool) (branches : List (Schema F64 L))
    (hns : kindOfSchema s ≠ SchemaKind.union) :
    resolveInternal E (Value.union b a) s idx = resolveDispatch E b s idx ∧
    resolveInternal E (Value.union b a) (Schema.union branches) idx =
      (match findSchema branches b with
       | some p => resolveInternal E b p.2 false
       | none => Except.error "Could not find matching type in union") := by
  constructor
  · rw [resolveInternal_unfold, unwrapU_union]
    have hb : (kindOfSchema s == SchemaKind.union) = false := by
      simp [hns]
    rw [hb]
    simp
  · rw [resolveInternal_unfold, unwrapU_union]
    simp only [kindOfSchema, beq_self_eq_true, if_true]
    rw [resolveDispatch_union, resolveUnion_eq]

/-- C3 (witness): the theorem applied with source `Union(Int 5)`, non-union
target `Long`, and union target `Union [String]`. -/
theorem claim_C3_witness :
    (resolveInternal (L := Unit) unitHost (Value.union (Value.int 5 none) none)
          Schema.long true
        = resolveDispatch unitHost (Value.int 5 none) Schema.long true) ∧
    (resolveInternal (L := Unit) unitHost (Value.union (Value.int 5 none) none)
          (Schema.union [Schema.string]) true
        = (match findSchema [Schema.string] (Value.int 5 none : Value Unit Unit Unit) with
           | some p => resolveInternal unitHost (Value.int 5 none) p.2 false
           | none => Except.error "Could not find matching type in union")) :=
  claim_C3 unitHost (Value.int 5 none) none Schema.long true [Schema.string] (by decide)

/-- C5: numeric resolution widens exactly — `Int` against `Long` keeps the
value, `Int`/`Long` against `Float`/`Double` and `Float` against `Double` go
through the host float casts — and narrows totally without error: `Long`
against `Int` truncates through `wrap32` (which is reduction modulo `2^32`
into the `i32` range) and `Double` against `Float` goes through the host
`f64 as f32` cast. -/
theorem claim_C5 (E : HostFns F32 F64) :
    (∀ (x : Int) (a : Option ValueSetting),
        resolve (L := L) E (Value.int x a) Schema.long = .ok (.long x none)) ∧
    (∀ (x : Int) (a : Option ValueSetting),
        resolve (L := L) E (Value.int x a) Schema.float = .ok (.float (E.i32AsF32 x) none)) ∧
    (∀ (x : Int) (a : Option ValueSetting),
        resolve (L := L) E (Value.int x a) Schema.double = .ok (.double (E.i32AsF64 x) none)) ∧
    (∀ (n : Int) (a : Option ValueSetting),
        resolve (L := L) E (Value.long n a) Schema.float = .ok (.float (E.i64AsF32 n) none)) ∧
    (∀ (n : Int) (a : Option ValueSetting),
        resolve (L := L) E (Value.long n a) Schema.double = .ok (.double (E.i64AsF64 n) none)) ∧
    (∀ (x : F32) (a : Option ValueSetting),
        resolve (L := L) E (Value.float x a) Schema.double = .ok (.double (E.f32AsF64 x) none)) ∧
    (∀ (n : Int) (a : Option ValueSetting),
        resolve (L := L) E (Value.long n a) Schema.int = .ok (.int (wrap32 n) none)) ∧
    (∀ (x : F64) (a : Option ValueSetting),
        resolve (L := L) E (Value.double x a) Schema.float = .ok (.float (E.f64AsF32 x) none)) ∧
    (∀ n : Int, wrap32 n % 2 ^ 32 = n % 2 ^ 32 ∧ -2 ^ 31 ≤ wrap32 n ∧ wrap32 n < 2 ^ 31) := by
  refine ⟨fun x a => ?_, fun x a => ?_, fun x a => ?_, fun n a => ?_, fun n a => ?_,
    fun x a => ?_, fun n a => ?_, fun x a => ?_, fun n => ?_⟩
  all_goals
    try (simp only [resolve_eq, resolveInternal_unfold, unwrapU_int, unwrapU_long,
      unwrapU_float, unwrapU_double, resolveDispatch_int, resolveDispatch_long,
      resolveDispatch_float, resolveDispatch_double, resolveInt, resolveLong,
      resolveFloat, resolveDouble, getValueSetting])
  all_goals
    first
    | rfl
    | (unfold wrap32; refine ⟨?_, ?_, ?_⟩ <;> omega)

/-- C4 (counterexample): the claim as stated is false for `String` sources —
`validate(String "x", Enum{symbols:["x"]})` is true although the Enum schema
is not the String schema (the validator's enum arm accepts any String that
names a declared symbol). -/
theorem claim_C4_cex :
    validate (Value.string "x" none : Value Unit Unit Unit)
        (Schema.enum ⟨"e", false⟩ none ["x"]) = true ∧
    (Schema.enum ⟨"e", false⟩ none ["x"] : Schema Unit Unit) ≠ Schema.string := by
  refine ⟨by decide, ?_⟩
  intro h
  exact Schema.noConfusion h

/-- C4 (amended): a scalar Value validates true exactly against the matching
scalar schema case — for Boolean, Int, Long, Float, Double and Bytes sources
that is the only schema accepting them, while a String source additionally
validates true against any Enum schema whose symbol list contains the
string. -/
theorem claim_C4 (s : Schema F64 L) :
    (∀ (b : Bool) (a : Option ValueSetting),
        validate (Value.boolean b a : Value F32 F64 L) s = true ↔ s = Schema.boolean) ∧
    (∀ (n : Int) (a : Option ValueSetting),
        validate (Value.int n a : Value F32 F64 L) s = true ↔ s = Schema.int) ∧
    (∀ (n : Int) (a : Option ValueSetting),
        validate (Value.long n a : Value F32 F64 L) s = true ↔ s = Schema.long) ∧
    (∀ (x : F32) (a : Option ValueSetting),
        validate (Value.float x a) s = true ↔ s = Schema.float) ∧
    (∀ (x : F64) (a : Option ValueSetting),
        validate (Value.double x a : Value F32 F64 L) s = true ↔ s = Schema.double) ∧
    (∀ (b : List Nat) (a : Option ValueSetting),
        validate (Value.bytes b a : Value F32 F64 L) s = true ↔ s = Schema.bytes) ∧
    (∀ (str : String) (a : Option ValueSetting),
        validate (Value.string str a : Value F32 F64 L) s = true ↔
          s = Schema.string ∨
          ∃ en doc symbols, s = Schema.enum en doc symbols ∧ symbols.contains str = true) := by
  cases s <;> simp [validate]
  intro str
  constructor
  · intro h
    exact ⟨_, _, _, ⟨rfl, rfl, rfl⟩, h⟩
  · rintro ⟨en, d, sy, ⟨rfl, rfl, rfl⟩, h⟩
    exact h

/-- C6: enum resolution — a `String` source resolves by first-position symbol
lookup (success yielding `Enum(i, s)` with `i` the symbol's first position in
the target list, exactly when the string is among the symbols, error
otherwise); an `Enum(i, s)` source requires the old index `i` to be in range
for the target list and is then re-resolved by the symbol name `s`, so the
resulting index is the target list's position for `s`, not the old index;
concretely `String "y"` against `["x","y"]` yields `Enum(1, "y")` and
`String "unknown"` fails. -/
theorem claim_C6 (symbols : List String) (s0 : String) (a : Option ValueSetting)
    (idx : Bool) :
    (resolveEnum (Value.string s0 a) symbols idx : Except String (Value F32 F64 L)) =
        (match symPos symbols s0 with
         | some p => .ok (.enum (Int.ofNat p) s0 (getValueSetting idx))
         | none => .error "Enum default is not among allowed symbols") ∧
    ((symPos symbols s0).isSome = true ↔ s0 ∈ symbols) ∧
    (∀ p, symPos symbols s0 = some p →
        symbols.get? p = some s0 ∧ ∀ j, j < p → symbols.get? j ≠ some s0) ∧
    (∀ (i : Int) (b : Option ValueSetting),
        (resolveEnum (Value.enum i s0 b) symbols idx : Except String (Value F32 F64 L)) =
          if 0 ≤ i ∧ i < (symbols.length : Int) then
            match symPos symbols s0 with
            | some p => .ok (.enum (Int.ofNat p) s0 (getValueSetting idx))
            | none => .error "Enum default is not among allowed symbols"
          else .error "Enum value is out of bound") ∧
    (resolveEnum (Value.string "y" none) ["x", "y"] false : Except String (Value F32 F64 L))
        = .ok (.enum 1 "y" none) ∧
    (resolveEnum (Value.string "unknown" none) ["x", "y"] false
        : Except String (Value F32 F64 L))
        = .error "Enum default is not among allowed symbols" := by
  refine ⟨rfl, symPos_mem symbols s0, fun p hp => ⟨symPos_get symbols s0 p hp,
    symPos_first symbols s0 p hp⟩, fun i b => rfl, ?_, ?_⟩ <;> rfl

/-- C6 (witness): the lookup-characterization part applied at symbol list
`["x","y"]` and symbol `"y"` (whose first position is 1). -/
theorem claim_C6_witness :
    (["x", "y"] : List String).get? 1 = some "y" ∧
    ∀ j, j < 1 → (["x", "y"] : List String).get? j ≠ some "y" :=
  (@claim_C6 Unit Unit Unit ["x", "y"] "y" none false).2.2.1 1
    (by decide)

/-- C7: record resolution from a Map (or collected Record) source walks the
target fields in schema order, looking each one up by name; an absent field
falls back to its declared default (an Enum-typed default being resolved
against that enum's symbol list), and an absent field with no default fails
with the missing-field error.  Concretely, target fields
`[a : Long default 1, b : String default "x"]` with source map `{a: Long 5}`
yield `Record [("a", Long 5), ("b", String "x")]`. -/
theorem claim_C7 (E : HostFns F32 F64) :
    resolve (L := L) E (Value.map [("a", Value.long 5 none)] none)
        (Schema.record ⟨"R", false⟩ none
          [RecordField.mk "a" none (some (JsonValue.number (JNumber.i 1))) Schema.long
             RecordFieldOrder.ascending 0 false,
           RecordField.mk "b" none (some (JsonValue.string "x")) Schema.string
             RecordFieldOrder.ascending 1 false] [("a", 0), ("b", 1)])
      = .ok (.record [("a", Value.long 5 none), ("b", Value.string "x" none)] none) ∧
    (∀ (fields : List (RecordField F64 L)) (items nf : List (String × Value F32 F64 L)),
        resolveFieldList E items fields = .ok nf →
        nf.map Prod.fst = fields.map RecordField.name) ∧
    (∀ (f : RecordField F64 L) (rest : List (RecordField F64 L))
        (items : List (String × Value F32 F64 L)),
        (hmRemove items f.name).1 = none → f.default = none →
        resolveFieldList E items (f :: rest) = .error "missing field in record") ∧
    resolve (L := L) E (Value.map [] none)
        (Schema.record ⟨"R", false⟩ none
          [RecordField.mk "c" none (some (JsonValue.string "y"))
             (Schema.enum ⟨"E", false⟩ none ["x", "y"]) RecordFieldOrder.ascending 0 false]
          [("c", 0)])
      = .ok (.record [("c", Value.enum 1 "y" none)] none) ∧
    resolve (L := L) E (Value.map [] none)
        (Schema.record ⟨"R", false⟩ none
          [RecordField.mk "c" none (some (JsonValue.string "z"))
             (Schema.enum ⟨"E", false⟩ none ["x", "y"]) RecordFieldOrder.ascending 0 false]
          [("c", 0)])
      = .error "Enum default is not among allowed symbols" := by
  refine ⟨?_, fun fields items nf h => fieldList_names E fields items nf h,
    fun f rest items h1 h2 => ?_, ?_, ?_⟩
  · simp only [resolve_eq, resolveInternal_unfold, unwrapU_map, resolveDispatch_record,
      resolveRecord_step, recordItems, resolveFieldList_cons, resolveFieldList_nil,
      hmRemove, List.find?, RecordField.name, RecordField.default, RecordField.schema,
      RecordField.index, jsonAvro, resolveDispatch_long, resolveDispatch_string,
      unwrapU_long, unwrapU_string, resolveLong, resolveString, getValueSetting]
    rfl
  · rw [resolveFieldList_cons, h1, h2]
  · simp only [resolve_eq, resolveInternal_unfold, unwrapU_map, resolveDispatch_record,
      resolveRecord_step, recordItems, resolveFieldList_cons, resolveFieldList_nil,
      hmRemove, List.find?, RecordField.name, RecordField.default, RecordField.schema,
      RecordField.index, jsonAvro, resolveDispatch_enum, unwrapU_enum, resolveEnum,
      symPos, getValueSetting]
    rfl
  · simp only [resolve_eq, resolveInternal_unfold, unwrapU_map, resolveDispatch_record,
      resolveRecord_step, recordItems, resolveFieldList_cons, resolveFieldList_nil,
      hmRemove, List.find?, RecordField.name, RecordField.default, RecordField.schema,
      RecordField.index, jsonAvro, resolveDispatch_enum, unwrapU_enum, resolveEnum,
      symPos, getValueSetting]
    rfl

/-- C7 (witness): the order-stability part applied to a one-field resolution,
and the missing-field part applied to an empty source map. -/
theorem claim_C7_witness :
    ([("a", (Value.long 5 none : Value Unit Unit Unit))].map Prod.fst
        = [RecordField.mk "a" none none Schema.long RecordFieldOrder.ascending 0 false].map
            (RecordField.name : RecordField Unit Unit → String)) ∧
    resolveFieldList (L := Unit) unitHost []
        [RecordField.mk "z" none none Schema.long RecordFieldOrder.ascending 0 false]
      = .error "missing field in record" := by
  constructor
  · exact (claim_C7 (L := Unit) unitHost).2.1
      [RecordField.mk "a" none none Schema.long RecordFieldOrder.ascending 0 false]
      [("a", Value.long 5 none)] [("a", Value.long 5 none)]
      (by
        simp only [resolveFieldList_cons, resolveFieldList_nil, hmRemove, List.find?,
          RecordField.name, RecordField.schema, RecordField.index, resolveInternal_unfold,
          resolveDispatch_long, resolveLong, getValueSetting]
        rfl)
  · exact (claim_C7 (L := Unit) unitHost).2.2.1
      (RecordField.mk "z" none none Schema.long RecordFieldOrder.ascending 0 false) [] []
      rfl rfl

/-- C8: bytes resolution — an `Array` source resolves each element against
`Int` and range-checks it to 0..=255, failing the whole resolution when any
element is out of range (`[Int 0, Int 300]` fails, `[Int 0, Int 42]` yields
`Bytes [0, 42]`); a `Bytes` source resolves verbatim and a `String` source is
re-encoded as its UTF-8 bytes. -/
theorem claim_C8 (E : HostFns F32 F64) :
    resolve (L := L) E (Value.array [Value.int 0 none, Value.int 300 none] none) Schema.bytes
        = .error "Unable to convert to u8" ∧
    resolve (L := L) E (Value.array [Value.int 0 none, Value.int 42 none] none) Schema.bytes
        = .ok (.bytes [0, 42] none) ∧
    (∀ (b : List Nat) (a : Option ValueSetting),
        resolve (L := L) E (Value.bytes b a) Schema.bytes = .ok (.bytes b none)) ∧
    (∀ (s : String) (a : Option ValueSetting),
        resolve (L := L) E (Value.string s a) Schema.bytes
          = .ok (.bytes (E.utf8Encode s) none)) ∧
    (∀ (n : Int) (a : Option ValueSetting),
        tryU8 (L := L) E (Value.int n a)
          = if 0 ≤ n ∧ n ≤ 255 then .ok n.toNat else .error "Unable to convert to u8") ∧
    (∀ (items : List (Value F32 F64 L)) (x : Value F32 F64 L) (e : String),
        x ∈ items → tryU8 E x = .error e → ∃ e2, tryU8List E items = .error e2) := by
  refine ⟨?_, ?_, fun b a => ?_, fun s a => ?_, fun n a => ?_,
    fun items x e hx he => tryU8List_mem_error E items x e hx he⟩
  · simp only [resolve_eq, resolveInternal_unfold, resolveDispatch_bytes, resolveDispatch_int,
      unwrapU_array, unwrapU_int, resolveBytes.eq_def, tryU8List_nil, tryU8List_cons,
      tryU8.eq_def, resolveInt, getValueSetting]
    rfl
  · simp only [resolve_eq, resolveInternal_unfold, resolveDispatch_bytes, resolveDispatch_int,
      unwrapU_array, unwrapU_int, resolveBytes.eq_def, tryU8List_nil, tryU8List_cons,
      tryU8.eq_def, resolveInt, getValueSetting]
    rfl
  · simp only [resolve_eq, resolveInternal_unfold, resolveDispatch_bytes, unwrapU_bytes,
      resolveBytes.eq_def, getValueSetting]
    rfl
  · simp only [resolve_eq, resolveInternal_unfold, resolveDispatch_bytes, unwrapU_string,
      resolveBytes.eq_def, getValueSetting]
    rfl
  · rw [tryU8.eq_def]
    simp only [resolve_eq, resolveInternal_unfold, unwrapU_int, resolveDispatch_int,
      resolveInt, getValueSetting]
    rfl

/-- C8 (witness): the element-failure part applied to the singleton list
`[Int 300]`, whose element fails the byte range check. -/
theorem claim_C8_witness :
    ∃ e2, tryU8List (L := Unit) unitHost [Value.int 300 none] = .error e2 :=
  (claim_C8 (L := Unit) unitHost).2.2.2.2.2 [Value.int 300 none] (Value.int 300 none)
    "Unable to convert to u8" (List.mem_singleton.mpr rfl)
    (by
      rw [tryU8.eq_def]
      simp only [resolve_eq, resolveInternal_unfold, unwrapU_int, resolveDispatch_int,
        resolveInt, getValueSetting]
      rfl)

end Model

end AvroRs
